import Mathlib

/-!
Verification of the mboot bootloader protocol engine of `spsdk_refeyn`
(`src/spsdk_refeyn/mboot/mcuboot.py`, `properties.py`, `memories.py`)
against its natural-language design specification.

Python integers on the wire are modelled as `Nat` (all raw words and status
codes received from the device are 32-bit unsigned values); Python byte
strings are modelled as `List Nat`; operations that can raise are modelled
with `Option` / an explicit exception constructor.  The transport interface
(`MbootProtocolBase.read`) is modelled by a script of read results consumed
in order; `write_command` / `write_data` calls are recorded in logs.

`mboot/error_codes.py` and `mboot/commands.py` are not part of the sources;
the status-code and command-tag vocabularies they define are modelled from
the specification where needed (see the doc comments marked
"Modelled from the spec").
-/

namespace Spsdk

/-! ## Version (properties.py, class Version) -/

/-- Embedding of `properties.Version`: mark (optional one-letter prefix),
major, minor and fixation components.  The Python `mark` is a one-character
string or `None`; it is modelled as `Option Char`. -/
structure Version where
  mark : Option Char
  major : Nat
  minor : Nat
  fixation : Nat
deriving DecidableEq, Repr

/-- Embedding of `Version.from_int`: `mark = (value >> 24) & 0xFF` kept only
when strictly between 64 and 91 (an upper-case ASCII letter), and
major / minor / fixation are the lower three bytes. -/
def versionFromInt (value : Nat) : Version :=
  let mark := (value >>> 24) &&& 0xFF
  { mark := if 64 < mark ∧ mark < 91 then some (Char.ofNat mark) else none
    major := (value >>> 16) &&& 0xFF
    minor := (value >>> 8) &&& 0xFF
    fixation := value &&& 0xFF }

/-- Embedding of `Version.to_int`:
`value = major << 16 | minor << 8 | fixation`, or-ed with `ord(mark) << 24`
unless the mark is absent (or `no_mark` is requested). -/
def versionToInt (v : Version) (noMark : Bool := false) : Nat :=
  let value := v.major <<< 16 ||| v.minor <<< 8 ||| v.fixation
  let mark := match v.mark with
    | none => 0
    | some c => if noMark then 0 else c.toNat <<< 24
  value ||| mark

/-- Embedding of `Version.to_str`: `"{major}.{minor}.{fixation}"` with the
mark prepended when present (and not suppressed). -/
def versionToStr (v : Version) (noMark : Bool := false) : String :=
  let value := toString v.major ++ "." ++ toString v.minor ++ "." ++ toString v.fixation
  let mark := match v.mark with
    | none => ""
    | some c => if noMark then "" else String.mk [c]
  mark ++ value

/-! ## Status codes and their rendering -/

/-- Modelled from the spec: `mboot/error_codes.py` is not under `src/`.
The spec (§3 "Status Code", §7) requires a closed numeric enumeration with a
human label distinguishing success, timeout/no-response and command-failure
outcomes; the exact numeric values are opaque here, only distinctness
matters.  The four members actually used by `mcuboot.py` are modelled. -/
def statusCodeList : List (Nat × String) :=
  [(0, "Success"),
   (1, "Fail"),
   (10004, "NoResponse"),
   (10008, "SendingOperationConditionError")]

def StatusCode.SUCCESS : Nat := 0

def StatusCode.FAIL : Nat := 1

def StatusCode.NO_RESPONSE : Nat := 10004

def StatusCode.SENDING_OPERATION_CONDITION_ERROR : Nat := 10008

/-- Upper-case hexadecimal digit character for a value below 16
(`'0'`–`'9'`, `'A'`–`'F'`). -/
def hexChar (n : Nat) : Char :=
  if n < 10 then Char.ofNat (48 + n) else Char.ofNat (55 + n)

/-- Big-endian upper-case hexadecimal digits of `n` (empty for `n = 0`).
Structural recursion on a fuel argument; `fuel ≥ n` always suffices because
the number of hexadecimal digits of `n` never exceeds `n` for `n ≥ 1`. -/
def hexDigitsAux : Nat → Nat → List Char
  | 0, _ => []
  | fuel + 1, n =>
    if n = 0 then [] else hexDigitsAux fuel (n / 16) ++ [hexChar (n % 16)]

/-- Embedding of the Python format expression `f"{value:08X}"`: upper-case
hexadecimal digits, left-padded with `'0'` to a minimum width of 8. -/
def pyHexUpper8 (value : Nat) : String :=
  let ds := if value = 0 then ['0'] else hexDigitsAux value value
  String.mk (List.replicate (8 - ds.length) '0' ++ ds)

/-- Embedding of the status rendering used when reporting results in
`McuBoot._read_data` (mcuboot.py lines 181–185) and `McuBoot._send_data`
(lines 249–253):
`StatusCode.get_label(code) if code in StatusCode.tags() else f"0x{code:08X}"`.
Membership in `StatusCode.tags()` is equivalent to the lookup succeeding. -/
def statusInfo (code : Nat) : String :=
  match statusCodeList.lookup code with
  | some label => label
  | none => "0x" ++ pyHexUpper8 code

/-! ## Memory regions (memories.py) -/

/-- Embedding of `memories.MemoryRegion`: `size = end - start + 1` is a Python
integer and may be negative, hence `Int`.  The Python attribute `end` is a
Lean keyword and is rendered as `endAddr`. -/
structure MemoryRegion where
  start : Nat
  endAddr : Nat
  size : Int
deriving DecidableEq, Repr

/-- Constructor semantics of `MemoryRegion.__init__`. -/
def mkMemoryRegion (start endAddr : Nat) : MemoryRegion :=
  { start := start, endAddr := endAddr, size := (endAddr : Int) - (start : Int) + 1 }

/-- Embedding of the loop in `ReservedRegionsValue.__init__`
(properties.py lines 489–493): consume the raw words two at a time, skipping
a pair whose second word (`end`) is zero.  `none` models the `IndexError`
raised by the access `raw_values[i + 1]` when the list has odd length. -/
def reservedRegionsOf : List Nat → Option (List MemoryRegion)
  | [] => some []
  | [_] => none
  | a :: b :: rest =>
    if b = 0 then reservedRegionsOf rest
    else (reservedRegionsOf rest).map (fun rs => mkMemoryRegion a b :: rs)

/-- Consecutive (start, end) word pairs of a raw word list. -/
def pairUp : List Nat → List (Nat × Nat)
  | a :: b :: rest => (a, b) :: pairUp rest
  | _ => []

/-- Upper-case hexadecimal digit predicate (`'0'`–`'9'` or `'A'`–`'F'`). -/
def isUpperHexDigit (c : Char) : Bool :=
  (('0' ≤ c) && (c ≤ '9')) || (('A' ≤ c) && (c ≤ 'F'))

/-- Numeric value of an upper-case hexadecimal digit character. -/
def hexCharVal (c : Char) : Nat :=
  if c.toNat ≤ 57 then c.toNat - 48 else c.toNat - 55

/-- Value denoted by a big-endian list of hexadecimal digit characters. -/
def hexVal (cs : List Char) : Nat :=
  cs.foldl (fun acc c => 16 * acc + hexCharVal c) 0

/-! ## Property decoding subsystem (properties.py) -/

/-- Base property-tag enumeration `PropertyTag` (tag, label, description),
transcribed from properties.py lines 164–204. -/
def propertyTagList : List (Nat × String × String) :=
  [(0x00, "ListProperties", "List Properties"),
   (0x01, "CurrentVersion", "Current Version"),
   (0x02, "AvailablePeripherals", "Available Peripherals"),
   (0x03, "FlashStartAddress", "Flash Start Address"),
   (0x04, "FlashSize", "Flash Size"),
   (0x05, "FlashSectorSize", "Flash Sector Size"),
   (0x06, "FlashBlockCount", "Flash Block Count"),
   (0x07, "AvailableCommands", "Available Commands"),
   (0x08, "CrcCheckStatus", "CRC Check Status"),
   (0x09, "LastError", "Last Error Value"),
   (0x0A, "VerifyWrites", "Verify Writes"),
   (0x0B, "MaxPacketSize", "Max Packet Size"),
   (0x0C, "ReservedRegions", "Reserved Regions"),
   (0x0D, "ValidateRegions", "Validate Regions"),
   (0x0E, "RamStartAddress", "RAM Start Address"),
   (0x0F, "RamSize", "RAM Size"),
   (0x10, "SystemDeviceIdent", "System Device Identification"),
   (0x11, "FlashSecurityState", "Security State"),
   (0x12, "UniqueDeviceIdent", "Unique Device Identification"),
   (0x13, "FlashFacSupport", "Flash Fac. Support"),
   (0x14, "FlashAccessSegmentSize", "Flash Access Segment Size"),
   (0x15, "FlashAccessSegmentCount", "Flash Access Segment Count"),
   (0x16, "FlashReadMargin", "Flash Read Margin"),
   (0x17, "QspiInitStatus", "QuadSPI Initialization Status"),
   (0x18, "TargetVersion", "Target Version"),
   (0x19, "ExternalMemoryAttributes", "External Memory Attributes"),
   (0x1A, "ReliableUpdateStatus", "Reliable Update Status"),
   (0x1B, "FlashPageSize", "Flash Page Size"),
   (0x1C, "IrqNotifierPin", "Irq Notifier Pin"),
   (0x1D, "PfrKeystoreUpdateOpt", "PFR Keystore Update Opt"),
   (0x1E, "ByteWriteTimeoutMs", "Byte Write Timeout in ms"),
   (0x1F, "FuseLockedStatus", "Fuse Locked Status"),
   (0x20, "BootStatusRegister", "Boot Status Register"),
   (0x21, "FirmwareVersion", "Firmware Version"),
   (0x22, "FuseProgramVoltage", "Fuse Program Voltage"),
   (0x24, "SheFlashPartition", "Secure Hardware Extension: Flash Partition"),
   (0x25, "SheBootMode", "Secure Hardware Extension: Boot Mode"),
   (0xFF, "Unknown", "Unknown property")]

/-- `PropertyTagKw45xx` (properties.py lines 207–213). -/
def propertyTagKw45List : List (Nat × String × String) :=
  [(0x0A, "VerifyErase", "Verify Erase"),
   (0x14, "BootStatusRegister", "Boot Status Register"),
   (0x15, "FirmwareVersion", "Firmware Version"),
   (0x16, "FuseProgramVoltage", "Fuse Program Voltage")]

/-- `PropertyTagKw47xx` (properties.py lines 215–221). -/
def propertyTagKw47List : List (Nat × String × String) :=
  [(0x0A, "VerifyErase", "Verify Erase"),
   (0x14, "BootStatusRegister", "Boot Status Register"),
   (0x15, "FirmwareVersion", "Firmware Version"),
   (0x22, "FuseProgramVoltage", "Fuse Program Voltage")]

/-- `PropertyTagMcxa1xx` (properties.py lines 223–226). -/
def propertyTagMcxa1List : List (Nat × String × String) :=
  [(0x11, "LifeCycleState", "Life Cycle State")]

/-- `FlashReadMargin` enumeration (tag, label). -/
def flashReadMarginList : List (Nat × String) :=
  [(0, "NORMAL"), (1, "USER"), (2, "FACTORY")]

/-- `PfrKeystoreUpdateOpt` enumeration (tag, label). -/
def pfrKeystoreUpdateOptList : List (Nat × String) :=
  [(0, "KEY_PROVISIONING"), (1, "WRITE_MEMORY")]

/-- Decoded `ExternalMemoryAttributesValue` payload: each field present only
when the corresponding bit of the leading bitmask word is set
(`ExtMemPropTags`: START_ADDRESS = 1, SIZE_IN_KBYTES = 2, PAGE_SIZE = 4,
SECTOR_SIZE = 8, BLOCK_SIZE = 16, from memories.py). -/
structure ExtMemAttrs where
  memId : Option Nat
  startAddress : Option Nat
  totalSize : Option Nat
  pageSize : Option Nat
  sectorSize : Option Nat
  blockSize : Option Nat
  value : Nat
deriving DecidableEq, Repr

/-- Typed payload of a decoded property value: one variant per
`PropertyValueBase` subclass in properties.py, carrying exactly the state
its `__init__` stores. -/
inductive PropCore where
  | intVal (fmt : String) (value : Nat)
  | intList (fmt : String) (delimiter : String) (value : List Nat)
  | boolVal (trueValues : List Nat) (trueString : String)
      (falseValues : List Nat) (falseString : String) (value : Nat)
  | enumVal (enum : List (Nat × String)) (naMsg : String) (value : Nat)
  | version (value : Version)
  | deviceUid (value : List Nat)
  | reservedRegions (regions : List MemoryRegion)
  | availablePeripherals (value : Nat)
  | availableCommands (value : Nat)
  | irqNotifierPin (value : Nat)
  | extMem (attrs : ExtMemAttrs)
  | fuseLockedStatus (fuses : List (List (Nat × Bool)))
  | sheFlashPartition (maxKeys flashSize : Nat)
  | sheBootMode (size mode : Nat)
deriving DecidableEq, Repr

/-- Decoding strategy plus configuration of one dispatch-table entry
(the `{"class": ..., "kwargs": {...}}` records of `PROPERTIES`). -/
inductive PropEntry where
  | intVal (fmt : String)
  | intList (fmt : String)
  | boolVal (trueValues : List Nat) (trueString : String)
      (falseValues : List Nat) (falseString : String)
  | enumVal (enum : List (Nat × String)) (naMsg : String)
  | versionVal
  | deviceUid
  | reservedRegions
  | availablePeripherals
  | availableCommands
  | irqNotifierPin
  | extMem
  | fuseLockedStatus
  | sheFlashPartition
  | sheBootMode
deriving DecidableEq, Repr

/-- A decoded property value: its tag plus the name / description resolved
from the (possibly overridden) tag enumeration, and the typed payload. -/
structure PropValue where
  tag : Nat
  name : String
  desc : String
  core : PropCore
deriving DecidableEq, Repr

/-- Little-endian 4-byte serialization of one raw word
(`int.to_bytes(val, length=4, byteorder="little")`). -/
def word4LE (v : Nat) : List Nat :=
  [v % 256, v / 256 % 256, v / 65536 % 256, v / 16777216 % 256]

/-- `raw_values[i] if cond else None`: `none` models the `IndexError` when
the condition holds but the index is out of range. -/
def condGet (raw : List Nat) (i : Nat) (cond : Bool) : Option (Option Nat) :=
  if cond then (raw.get? i).map some else some (none : Option Nat)

/-- Embedding of `ExternalMemoryAttributesValue.__init__`
(properties.py lines 619–637). -/
def decodeExtMem (raw : List Nat) (memId : Option Nat) : Option PropCore := do
  let v0 ← raw.get? 0
  let sa ← condGet raw 1 (v0 &&& 1 != 0)
  let ts ← condGet raw 2 (v0 &&& 2 != 0)
  let ps ← condGet raw 3 (v0 &&& 4 != 0)
  let ss ← condGet raw 4 (v0 &&& 8 != 0)
  let bs ← condGet raw 5 (v0 &&& 16 != 0)
  some (.extMem
    { memId := memId, startAddress := sa, totalSize := ts.map (· * 1024),
      pageSize := ps, sectorSize := ss, blockSize := bs, value := v0 })

/-- Embedding of `FuseLockRegister.__init__` (properties.py lines 675–691):
one `(fuse index, locked)` pair per bit from `start` to 31. -/
def fuseLockRegister (value index start : Nat) : List (Nat × Bool) :=
  (List.range (32 - start)).map
    (fun shift => (index + shift, ((value >>> shift) &&& 1) != 0))

/-- Embedding of the loop in `FuseLockedStatus.__init__`
(properties.py lines 707–723): the first word uses `start = 16` and
contributes 16 fuse indices, later words use `start = 0` and contribute 32. -/
def fuseLockedStatusOf (raw : List Nat) : List (List (Nat × Bool)) :=
  match raw with
  | [] => []
  | v0 :: rest =>
    fuseLockRegister v0 0 16 ::
      rest.enum.map (fun p => fuseLockRegister p.2 (16 + 32 * p.1) 0)

/-- Decode `raw` words with one dispatch-table entry: the semantics of
`cls(property_tag, raw_values, **kwargs)` for each value class.  `none`
models the `IndexError` raised by classes that access `raw_values[0]` (or
further indices) when the list is too short. -/
def decodeEntry (e : PropEntry) (raw : List Nat) (extMemId : Option Nat) :
    Option PropCore :=
  match e with
  | .intVal fmt => raw.head?.map (fun v => .intVal fmt v)
  | .intList fmt => some (.intList fmt ", " raw)
  | .boolVal tv ts fv fs => raw.head?.map (fun v => .boolVal tv ts fv fs v)
  | .enumVal enum na => raw.head?.map (fun v => .enumVal enum na v)
  | .versionVal => raw.head?.map (fun v => .version (versionFromInt v))
  | .deviceUid => some (.deviceUid (raw.flatMap word4LE))
  | .reservedRegions => (reservedRegionsOf raw).map (fun rs => .reservedRegions rs)
  | .availablePeripherals => raw.head?.map (fun v => .availablePeripherals v)
  | .availableCommands => raw.head?.map (fun v => .availableCommands v)
  | .irqNotifierPin => raw.head?.map (fun v => .irqNotifierPin v)
  | .extMem => decodeExtMem raw extMemId
  | .fuseLockedStatus => some (.fuseLockedStatus (fuseLockedStatusOf raw))
  | .sheFlashPartition =>
      raw.head?.map (fun v => .sheFlashPartition (v &&& 0x03) ((v >>> 8) &&& 0x03))
  | .sheBootMode =>
      raw.head?.map (fun v => .sheBootMode (v &&& 0x3FFFFFFF) ((v >>> 30) &&& 0x03))

/-- Base dispatch table `PROPERTIES` (properties.py lines 809–924). -/
def PROPERTIES : List (Nat × PropEntry) :=
  [(0x01, .versionVal),
   (0x02, .availablePeripherals),
   (0x03, .intVal "hex"),
   (0x04, .intVal "size"),
   (0x05, .intVal "size"),
   (0x06, .intVal "dec"),
   (0x07, .availableCommands),
   (0x08, .enumVal statusCodeList "Unknown CRC Status code"),
   (0x0A, .boolVal [1] "ON" [0] "OFF"),
   (0x09, .enumVal statusCodeList "Unknown Error"),
   (0x0B, .intVal "size"),
   (0x0C, .reservedRegions),
   (0x0D, .boolVal [1] "ON" [0] "OFF"),
   (0x0E, .intVal "hex"),
   (0x0F, .intVal "size"),
   (0x10, .intVal "hex"),
   (0x11, .boolVal [0x00000000, 0x5AA55AA5] "UNSECURE"
      [0x00000001, 0xC33CC33C] "SECURE"),
   (0x12, .deviceUid),
   (0x13, .boolVal [1] "ON" [0] "OFF"),
   (0x14, .intVal "size"),
   (0x15, .intVal "int32"),
   (0x16, .enumVal flashReadMarginList "Unknown Margin"),
   (0x17, .enumVal statusCodeList "Unknown Error"),
   (0x18, .versionVal),
   (0x19, .extMem),
   (0x1A, .enumVal statusCodeList "Unknown Error"),
   (0x1B, .intVal "size"),
   (0x1C, .irqNotifierPin),
   (0x1D, .enumVal pfrKeystoreUpdateOptList "Unknown"),
   (0x1E, .intVal "dec"),
   (0x1F, .fuseLockedStatus),
   (0x20, .intVal "int32"),
   (0x21, .intVal "int32"),
   (0x22, .boolVal [1] "Over Drive Voltage (2.5 V)" [0] "Normal Voltage (1.8 V)"),
   (0x24, .sheFlashPartition),
   (0x25, .sheBootMode),
   (0xFF, .intList "hex")]

/-- Override table `PROPERTIES_KW45XX` (properties.py lines 926–946). -/
def PROPERTIES_KW45XX : List (Nat × PropEntry) :=
  [(0x0A, .boolVal [1] "ENABLE" [0] "DISABLE"),
   (0x14, .intVal "hex"),
   (0x15, .intVal "int32"),
   (0x16, .boolVal [1] "Over Drive Voltage (2.5 V)" [0] "Normal Voltage (1.8 V)")]

/-- Override table `PROPERTIES_KW47XX` (properties.py lines 948–968). -/
def PROPERTIES_KW47XX : List (Nat × PropEntry) :=
  [(0x0A, .boolVal [1] "ENABLE" [0] "DISABLE"),
   (0x14, .intVal "hex"),
   (0x15, .intVal "int32"),
   (0x22, .boolVal [1] "Over Drive Voltage (2.5 V)" [0] "Normal Voltage (1.8 V)")]

/-- Override table `PROPERTIES_MCXA1XX` (properties.py lines 971–981). -/
def PROPERTIES_MCXA1XX : List (Nat × PropEntry) :=
  [(0x11, .boolVal [0x00000000, 0x5AA55AA5] "development life cycle"
      [0x00000001, 0xC33CC33C] "deployment life cycle")]

/-- `PROPERTIES_OVERRIDE` (properties.py lines 983–987). -/
def PROPERTIES_OVERRIDE : List (String × List (Nat × PropEntry)) :=
  [("kw47_series", PROPERTIES_KW47XX),
   ("kw45_series", PROPERTIES_KW45XX),
   ("mcxa1_series", PROPERTIES_MCXA1XX)]

/-- `PROPERTY_TAG_OVERRIDE` (properties.py lines 988–992). -/
def PROPERTY_TAG_OVERRIDE : List (String × List (Nat × String × String)) :=
  [("kw47_series", propertyTagKw47List),
   ("kw45_series", propertyTagKw45List),
   ("mcxa1_series", propertyTagMcxa1List)]

/-- Modelled from the spec (§6 "Family/capability lookup",
`utils/database.py` is not under `src/`): a family resolves to the name of
its property-override series, or the empty string when its database entry
names none.  `FamilyRevision` itself is in `utils/family.py`; the database
lookup `get_db(family).get_str(BLHOST, "overridden_properties", "")` is
modelled by the `overriddenProperties` field. -/
structure FamilyRevision where
  name : String
  overriddenProperties : String
deriving DecidableEq, Repr

/-- `dict.update`: entries of `ov` replace same-key entries of `base`
(in place), and entries with new keys are appended. -/
def updateTable (base ov : List (Nat × PropEntry)) : List (Nat × PropEntry) :=
  base.map (fun p =>
    match ov.lookup p.1 with
    | some e => (p.1, e)
    | none => p)
  ++ ov.filter (fun p => (base.lookup p.1).isNone)

/-- Shared tail of `parse_property_value`: build the value object
(`cls(property_tag, raw_values, **kwargs)`, whose base init resolves
name/description from the base `PropertyTag` enum) and, when an override
series is active, rename it from the override tag enumeration
(`from_tag` raising `SPSDKKeyError`, modelled by `none`, when the tag is not
a member). -/
def parseFinish (tag : Nat) (e : PropEntry) (raw : List Nat)
    (extMemId : Option Nat)
    (tagEnumOverride : Option (List (Nat × String × String))) :
    Option PropValue := do
  let nmds ← propertyTagList.lookup tag
  let core ← decodeEntry e raw extMemId
  match tagEnumOverride with
  | none => some ⟨tag, nmds.1, nmds.2, core⟩
  | some enumList => do
      let nmds2 ← enumList.lookup tag
      some ⟨tag, nmds2.1, nmds2.2, core⟩

/-- Dispatch on the (possibly overridden) table: a tag absent from the table
falls back to `PropertyTag.UNKNOWN` (0xFF). -/
def parseWith (table : List (Nat × PropEntry))
    (tagEnumOverride : Option (List (Nat × String × String)))
    (tag : Nat) (raw : List Nat) (extMemId : Option Nat) : Option PropValue :=
  match table.lookup tag with
  | some e => parseFinish tag e raw extMemId tagEnumOverride
  | none =>
    match table.lookup 0xFF with
    | some e => parseFinish 0xFF e raw extMemId tagEnumOverride
    | none => none

/-- Embedding of `parse_property_value` (properties.py lines 995–1032):
resolve the family's override series (empty string means none), apply the
override table on top of a copy of the base table, dispatch on the tag
(falling back to UNKNOWN), decode, and rename name/description from the
override tag enumeration when an override series is active.  An override
series name missing from `PROPERTIES_OVERRIDE` would raise `KeyError`
(modelled by `none`). -/
def parsePropertyValue (propertyTag : Nat) (rawValues : List Nat)
    (extMemId : Option Nat) (family : Option FamilyRevision) :
    Option PropValue :=
  let overriddenSeries :=
    match family with
    | some f => f.overriddenProperties
    | none => ""
  if overriddenSeries = "" then
    parseWith PROPERTIES none propertyTag rawValues extMemId
  else
    match PROPERTIES_OVERRIDE.lookup overriddenSeries,
        PROPERTY_TAG_OVERRIDE.lookup overriddenSeries with
    | some ovTable, some ovEnum =>
        parseWith (updateTable PROPERTIES ovTable) (some ovEnum)
          propertyTag rawValues extMemId
    | _, _ => none

/-- Modelled from the spec: the claim's reading of "extracting mark, major,
minor, and fixation by nibble extraction from that word", i.e. with 4-bit
(nibble) fields instead of the 8-bit byte fields the code uses.  Stated only
to be compared against `versionFromInt`. -/
def versionFromIntNibbles (value : Nat) : Version :=
  let mark := (value >>> 12) &&& 0xF
  { mark := if 64 < mark ∧ mark < 91 then some (Char.ofNat mark) else none
    major := (value >>> 8) &&& 0xF
    minor := (value >>> 4) &&& 0xF
    fixation := value &&& 0xF }

/-! ## Session state machine (mcuboot.py, class McuBoot) -/

/-- Modelled from the spec: command identifiers (`mboot/commands.py` is not
under `src/`; the spec §3 calls the identifier space closed).  Only the tags
used by the embedded session operations are modelled; their exact numeric
values are irrelevant to the claims, only distinctness matters. -/
def CommandTag.NO_COMMAND : Nat := 0x00

def CommandTag.FLASH_ERASE_ALL : Nat := 0x01

def CommandTag.READ_MEMORY : Nat := 0x03

def CommandTag.WRITE_MEMORY : Nat := 0x04

def CommandTag.FILL_MEMORY : Nat := 0x05

def CommandTag.GET_PROPERTY : Nat := 0x07

/-- Modelled from the spec: labels of the command tags above. -/
def CommandTag.labelOf (tag : Nat) : String :=
  (([(0x00, "NoCommand"), (0x01, "FlashEraseAll"), (0x03, "ReadMemory"),
     (0x04, "WriteMemory"), (0x05, "FillMemory"),
     (0x07, "GetProperty")] : List (Nat × String)).lookup tag).getD "Unknown"

def PropertyTag.MAX_PACKET_SIZE : Nat := 0x0B

def McuBoot.DEFAULT_MAX_PACKET_SIZE : Nat := 32

/-- Outbound command packet: tag, flags and up to four parameter words
(`CmdPacket(cmd_tag, flags, *args)`). -/
structure CmdPacket where
  tag : Nat
  flags : Nat
  params : List Nat
deriving DecidableEq, Repr

/-- Modelled from the spec (§3 "Response", §4.2): the structured responses
`mboot/commands.py` defines.  `noResponse` is the synthesized result whose
status is the no-response status; `generic` is the command-echo/status
response; `readMemory` / `getProperty` carry their extra result words. -/
inductive CmdResponse where
  | generic (cmdTag status : Nat)
  | readMemory (cmdTag status length : Nat)
  | getProperty (cmdTag status : Nat) (values : List Nat)
  | noResponse (cmdTag : Nat)
deriving DecidableEq, Repr

/-- Status carried by a response (`response.status`); a `NoResponse` carries
the no-response status (spec §4.2 (c)). -/
def CmdResponse.status : CmdResponse → Nat
  | .generic _ s => s
  | .readMemory _ s _ => s
  | .getProperty _ s _ => s
  | .noResponse _ => StatusCode.NO_RESPONSE

/-- One outcome of `interface.read()` in the transport script: raw
data-phase bytes, a structured response, a `TimeoutError`, or a
`McuBootDataAbortError` (spec §6: timeout and data-phase abort are
distinguishable signals). -/
inductive RxItem where
  | bytes (data : List Nat)
  | packet (resp : CmdResponse)
  | timeout
  | dataAbort
deriving DecidableEq, Repr

/-- Exceptions of the session layer.  `connection`, `command`, `mcuboot` and
`dataAbort` model the `McuBootError` hierarchy (`McuBootConnectionError`,
`McuBootCommandError`, `McuBootError`, `McuBootDataAbortError`); `timeout`,
`assertionFailed` and `indexOutOfRange` model the builtin `TimeoutError`,
`AssertionError` and `IndexError`, which are not `McuBootError`s. -/
inductive McuErr where
  | connection
  | command (label : String) (status : Nat)
  | mcuboot (msg : String)
  | dataAbort
  | timeout
  | assertionFailed
  | indexOutOfRange
deriving DecidableEq, Repr

/-- Whether `except McuBootError` catches the exception. -/
def McuErr.isMcuBootError : McuErr → Bool
  | .connection | .command _ _ | .mcuboot _ | .dataAbort => true
  | .timeout | .assertionFailed | .indexOutOfRange => false

/-- Session state of a `McuBoot` object bound to a scripted transport:
`statusCode` is `self._status_code`, `maxPacketSize` and `pausePoint` the
corresponding attributes, `reads` the remaining transport script, and
`cmdLog` / `dataLog` / `progressLog` record `write_command`, `write_data`
and progress-callback invocations in order. -/
structure MbootState where
  statusCode : Nat
  isOpened : Bool
  cmdException : Bool
  maxPacketSize : Option Nat
  pausePoint : Option Nat
  reads : List RxItem
  cmdLog : List CmdPacket
  dataLog : List (List Nat)
  progressLog : List (Nat × Nat)
deriving DecidableEq, Repr

/-- Result of running a session operation: normal return, a raised
exception, or `stuck` when the transport script is exhausted (the behavior
is then not modelled). -/
inductive Outcome (α : Type) where
  | ok (a : α) (st : MbootState)
  | exn (e : McuErr) (st : MbootState)
  | stuck

/-- Sequencing of session operations: exceptions and stuck scripts
propagate. -/
def Outcome.bind {α β : Type} (o : Outcome α)
    (f : α → MbootState → Outcome β) : Outcome β :=
  match o with
  | .stuck => .stuck
  | .exn e st => .exn e st
  | .ok a st => f a st

/-- Tail of `_process_cmd` after the response is obtained (mcuboot.py lines
125–134): record the status, and raise `McuBootCommandError` when the
session is configured to raise and the status is not SUCCESS. -/
def processCmdFinish (pkt : CmdPacket) (r : CmdResponse) (st : MbootState) :
    Outcome CmdResponse :=
  if st.cmdException = true ∧ r.status ≠ StatusCode.SUCCESS then
    .exn (.command (CommandTag.labelOf pkt.tag) r.status)
      { st with statusCode := r.status }
  else .ok r { st with statusCode := r.status }

/-- Embedding of `McuBoot._process_cmd` (mcuboot.py lines 103–134): require
the open state, send the packet, read one response; a transport timeout
records the no-response status and synthesizes a `NoResponse`; raw bytes
fail the `isinstance` assertion; a data abort propagates uncaught. -/
def processCmd (pkt : CmdPacket) (st : MbootState) : Outcome CmdResponse :=
  if st.isOpened = false then .exn .connection st
  else
    match st.reads with
    | [] => .stuck
    | item :: rest =>
      match item with
      | .timeout =>
          processCmdFinish pkt (.noResponse pkt.tag)
            { st with statusCode := StatusCode.NO_RESPONSE,
                      reads := rest, cmdLog := st.cmdLog ++ [pkt] }
      | .dataAbort =>
          .exn .dataAbort { st with reads := rest, cmdLog := st.cmdLog ++ [pkt] }
      | .bytes _ =>
          .exn .assertionFailed
            { st with reads := rest, cmdLog := st.cmdLog ++ [pkt] }
      | .packet r =>
          processCmdFinish pkt r
            { st with reads := rest, cmdLog := st.cmdLog ++ [pkt] }

/-- Result of the read loop of `_read_data`: the loop either breaks (with
the accumulated data, the response that ended it, the status code, the
progress log and the remaining script), raises, or exhausts the script. -/
inductive LoopOut where
  | broke (data : List Nat) (resp : CmdResponse) (status : Nat)
      (plog : List (Nat × Nat)) (rest : List RxItem)
  | exn (e : McuErr) (status : Nat) (plog : List (Nat × Nat))
      (rest : List RxItem)
  | stuck
deriving DecidableEq, Repr

/-- Embedding of the `while True` read loop of `_read_data` (mcuboot.py
lines 156–178): bytes accumulate (progress callback on each chunk), a
timeout breaks with the no-response status, a data abort triggers exactly
one immediate retry read (whose own timeout/abort exceptions propagate
uncaught, as they are raised inside the `except` handler), a
`GenericResponse` records its status and breaks when its echoed command tag
matches, and any other structured response is ignored. -/
def readDataLoop (cmdTag dlen : Nat) (useCb : Bool) :
    List RxItem → Nat → List (Nat × Nat) → List Nat → LoopOut
  | [], _, _, _ => .stuck
  | .timeout :: rest, _, plog, acc =>
      .broke acc (.noResponse cmdTag) StatusCode.NO_RESPONSE plog rest
  | .bytes bs :: rest, status, plog, acc =>
      readDataLoop cmdTag dlen useCb rest status
        (if useCb then plog ++ [((acc ++ bs).length, dlen)] else plog)
        (acc ++ bs)
  | .packet (.generic ct s) :: rest, _, plog, acc =>
      if ct = cmdTag then .broke acc (.generic ct s) s plog rest
      else readDataLoop cmdTag dlen useCb rest s plog acc
  | .packet r :: rest, status, plog, acc =>
      readDataLoop cmdTag dlen useCb rest status plog acc
  | .dataAbort :: [], _, _, _ => .stuck
  | .dataAbort :: .timeout :: rest, status, plog, _ =>
      .exn .timeout status plog rest
  | .dataAbort :: .dataAbort :: rest, status, plog, _ =>
      .exn .dataAbort status plog rest
  | .dataAbort :: .bytes bs :: rest, status, plog, acc =>
      readDataLoop cmdTag dlen useCb rest status
        (if useCb then plog ++ [((acc ++ bs).length, dlen)] else plog)
        (acc ++ bs)
  | .dataAbort :: .packet (.generic ct s) :: rest, _, plog, acc =>
      if ct = cmdTag then .broke acc (.generic ct s) s plog rest
      else readDataLoop cmdTag dlen useCb rest s plog acc
  | .dataAbort :: .packet r :: rest, status, plog, acc =>
      readDataLoop cmdTag dlen useCb rest status plog acc

/-- Embedding of `McuBoot._read_data` (mcuboot.py lines 136–195): require
the open state, run the read loop, and afterwards either raise
`McuBootCommandError` (when short or failed and the session is configured
to raise) or return the data truncated to the requested length. -/
def readData (cmdTag dlen : Nat) (useCb : Bool) (st : MbootState) :
    Outcome (List Nat) :=
  if st.isOpened = false then .exn .connection st
  else
    match readDataLoop cmdTag dlen useCb st.reads st.statusCode
        st.progressLog [] with
    | .stuck => .stuck
    | .exn e status plog rest =>
        .exn e { st with statusCode := status, progressLog := plog,
                         reads := rest }
    | .broke data resp status plog rest =>
        if data.length < dlen ∨ status ≠ StatusCode.SUCCESS then
          if st.cmdException then
            .exn (.command (CommandTag.labelOf cmdTag) resp.status)
              { st with statusCode := status, progressLog := plog,
                        reads := rest }
          else
            .ok (if dlen < data.length then data.take dlen else data)
              { st with statusCode := status, progressLog := plog,
                        reads := rest }
        else
          .ok (if dlen < data.length then data.take dlen else data)
            { st with statusCode := status, progressLog := plog,
                      reads := rest }

/-- The chunk-writing loop of `_send_data` (mcuboot.py lines 222–229):
write each chunk, report progress, and when the pause point is crossed
sleep once and disable further pausing (`0` and `None` pause points are
both falsy in `if self._pause_point`). -/
def sendChunksLoop (useCb : Bool) (totalToSend : Nat) :
    List (List Nat) → Nat → MbootState → Nat × MbootState
  | [], total, st => (total, st)
  | c :: cs, total, st =>
      sendChunksLoop useCb totalToSend cs (total + c.length)
        (match st.pausePoint with
         | some pp =>
             if pp ≠ 0 ∧ pp < total + c.length then
               { st with dataLog := st.dataLog ++ [c],
                         progressLog := st.progressLog ++
                           (if useCb then [(total + c.length, totalToSend)] else []),
                         pausePoint := none }
             else
               { st with dataLog := st.dataLog ++ [c],
                         progressLog := st.progressLog ++
                           (if useCb then [(total + c.length, totalToSend)] else []) }
         | none =>
             { st with dataLog := st.dataLog ++ [c],
                       progressLog := st.progressLog ++
                         (if useCb then [(total + c.length, totalToSend)] else []) })

/-- Tail of `_send_data` once the terminal response is in hand (mcuboot.py
lines 244–260): record its status; on non-success either raise
`McuBootCommandError` or return `False`; on success return whether all
bytes were sent. -/
def sendDataFinish (cmdTag totalSent totalToSend : Nat) (r : CmdResponse)
    (st : MbootState) : Outcome Bool :=
  if r.status ≠ StatusCode.SUCCESS then
    if st.cmdException then
      .exn (.command (CommandTag.labelOf cmdTag) r.status)
        { st with statusCode := r.status }
    else .ok false { st with statusCode := r.status }
  else .ok (totalSent == totalToSend) { st with statusCode := r.status }

/-- Embedding of `McuBoot._send_data` (mcuboot.py lines 197–260): require
the open state, stream the chunks, then (unless the command is `NO_COMMAND`)
read the terminal data-phase response: a transport timeout there records the
no-response status and raises `McuBootConnectionError`; an `SPSDKError`
(data abort) is answered by one more read.  Chunk writes themselves always
succeed in this model, so the no-response-expected path returns
`total_sent == total_to_send`. -/
def sendData (cmdTag : Nat) (data : List (List Nat)) (useCb : Bool)
    (st : MbootState) : Outcome Bool :=
  if st.isOpened = false then .exn .connection st
  else
    match sendChunksLoop useCb ((data.map List.length).sum) data 0 st with
    | (totalSent, st1) =>
      if cmdTag ≠ CommandTag.NO_COMMAND then
        match st1.reads with
        | [] => .stuck
        | item :: rest =>
          match item with
          | .timeout =>
              .exn .connection
                { st1 with statusCode := StatusCode.NO_RESPONSE, reads := rest }
          | .bytes _ => .exn .assertionFailed { st1 with reads := rest }
          | .packet r =>
              sendDataFinish cmdTag totalSent ((data.map List.length).sum) r
                { st1 with reads := rest }
          | .dataAbort =>
            match rest with
            | [] => .stuck
            | item2 :: rest2 =>
              match item2 with
              | .timeout => .exn .timeout { st1 with reads := rest2 }
              | .dataAbort => .exn .dataAbort { st1 with reads := rest2 }
              | .bytes _ => .exn .assertionFailed { st1 with reads := rest2 }
              | .packet r =>
                  sendDataFinish cmdTag totalSent ((data.map List.length).sum) r
                    { st1 with reads := rest2 }
      else .ok (totalSent == (data.map List.length).sum) st1

/-- Embedding of `McuBoot.get_property` (mcuboot.py lines 496–518). -/
def getProperty (propTag index : Nat) (st : MbootState) :
    Outcome (Option (List Nat)) :=
  (processCmd ⟨CommandTag.GET_PROPERTY, 0, [propTag, index]⟩ st).bind
    fun resp st1 =>
      if resp.status = StatusCode.SUCCESS then
        match resp with
        | .getProperty _ _ values => .ok (some values) st1
        | _ => .exn (.mcuboot "Received invalid get-property response") st1
      else .ok none st1

/-- Embedding of `McuBoot._get_max_packet_size` (mcuboot.py lines 262–285):
return the cached value when present; otherwise query the MAX_PACKET_SIZE
property (any `McuBootError` from the query is swallowed), fall back to the
default 32 when no value was obtained, and cache the result. -/
def getMaxPacketSize (st : MbootState) : Outcome Nat :=
  match st.maxPacketSize with
  | some v => .ok v st
  | none =>
    match getProperty PropertyTag.MAX_PACKET_SIZE 0 st with
    | .stuck => .stuck
    | .exn e st1 =>
        if e.isMcuBootError then
          .ok McuBoot.DEFAULT_MAX_PACKET_SIZE
            { st1 with maxPacketSize := some McuBoot.DEFAULT_MAX_PACKET_SIZE }
        else .exn e st1
    | .ok v st1 =>
        match v with
        | some [] => .exn .indexOutOfRange st1
        | some (p :: _) => .ok p { st1 with maxPacketSize := some p }
        | none =>
            .ok McuBoot.DEFAULT_MAX_PACKET_SIZE
              { st1 with maxPacketSize := some McuBoot.DEFAULT_MAX_PACKET_SIZE }

/-- Embedding of `_clamp_down_memory_id` (mcuboot.py lines 539–545). -/
def clampDownMemoryId (memoryId : Nat) : Nat :=
  if 255 < memoryId ∨ memoryId = 0 then memoryId else 0

/-- Embedding of the per-packet loop of the USB non-fast path of
`McuBoot.read_memory` (mcuboot.py lines 406–434): for each packet index,
issue a READ_MEMORY command for `address + idx * payload_size` with the
packet's sub-length (the remainder on the last packet when nonzero); on a
success status run the data phase (without the caller's progress callback)
and append its bytes, report progress, and return early with the partial
data when the status is NO_RESPONSE; on any other status return `b""`. -/
def readMemoryUsbLoop (address payloadSize memId remainder packets
    totalLen : Nat) (useCb : Bool) (idx : Nat) (acc : List Nat)
    (st : MbootState) : Outcome (List Nat) :=
  if hidx : idx < packets then
    (processCmd
        ⟨CommandTag.READ_MEMORY, 0,
         [address + idx * payloadSize,
          if idx = packets - 1 ∧ remainder ≠ 0 then remainder else payloadSize,
          memId]⟩ st).bind fun resp st1 =>
      if resp.status = StatusCode.SUCCESS then
        (readData CommandTag.READ_MEMORY
            (if idx = packets - 1 ∧ remainder ≠ 0 then remainder else payloadSize)
            false st1).bind fun chunk st2 =>
          if st2.statusCode = StatusCode.NO_RESPONSE then
            .ok (acc ++ chunk)
              (if useCb then
                { st2 with progressLog :=
                    st2.progressLog ++ [((acc ++ chunk).length, totalLen)] }
               else st2)
          else
            readMemoryUsbLoop address payloadSize memId remainder packets
              totalLen useCb (idx + 1) (acc ++ chunk)
              (if useCb then
                { st2 with progressLog :=
                    st2.progressLog ++ [((acc ++ chunk).length, totalLen)] }
               else st2)
      else .ok [] st1
  else .ok acc st
  termination_by packets - idx
  decreasing_by omega

/-- Embedding of `McuBoot.read_memory` (mcuboot.py lines 376–445).
`isUsb` models `isinstance(self._interface.device, UsbDevice)`.  The USB
non-fast path chunks the read itself; the other path issues a single
READ_MEMORY command and, on success, reads `cmd_response.length` bytes
(returning `none` on a failed command). -/
def readMemory (address totalLen memId : Nat) (useCb fastMode isUsb : Bool)
    (st : MbootState) : Outcome (Option (List Nat)) :=
  if isUsb = true ∧ fastMode = false then
    (getMaxPacketSize st).bind fun payloadSize st1 =>
      (readMemoryUsbLoop address payloadSize (clampDownMemoryId memId)
          (totalLen % payloadSize)
          (totalLen / payloadSize + if totalLen % payloadSize ≠ 0 then 1 else 0)
          totalLen useCb 0 [] st1).bind fun data st2 =>
        .ok (some data) st2
  else
    (processCmd
        ⟨CommandTag.READ_MEMORY, 0,
         [address, totalLen, clampDownMemoryId memId]⟩ st).bind fun resp st1 =>
      if resp.status = StatusCode.SUCCESS then
        match resp with
        | .readMemory _ _ rlen =>
            (readData CommandTag.READ_MEMORY rlen useCb st1).bind
              fun data st2 => .ok (some data) st2
        | _ => .exn .assertionFailed st1
      else .ok none st1

/-! ## Transport scripts for the chunked-read theorems -/

/-- Transport script of one successful READ_MEMORY sub-read cycle: the
command response (success, announcing the sub-length), the data-phase bytes
in one piece, and the closing command-echo `GenericResponse`. -/
def okReadCycle (chunk : List Nat) : List RxItem :=
  [.packet (.readMemory CommandTag.READ_MEMORY StatusCode.SUCCESS chunk.length),
   .bytes chunk,
   .packet (.generic CommandTag.READ_MEMORY StatusCode.SUCCESS)]

/-- Transport script of consecutive successful sub-read cycles, one per
chunk. -/
def okReadScript (chunks : List (List Nat)) : List RxItem :=
  (chunks.map okReadCycle).flatten

/-- Number of sub-reads of the USB non-fast read path:
`length // payload_size`, plus one when the remainder is nonzero — that is,
`ceil(length / payload_size)`. -/
def usbNumPackets (totalLen payloadSize : Nat) : Nat :=
  totalLen / payloadSize + if totalLen % payloadSize ≠ 0 then 1 else 0

/-- Sub-length requested by the `idx`-th sub-read: the full payload size,
except the remainder on the last packet when the payload size does not
divide the total length. -/
def usbSubLen (totalLen payloadSize idx : Nat) : Nat :=
  if idx = usbNumPackets totalLen payloadSize - 1 ∧ totalLen % payloadSize ≠ 0
  then totalLen % payloadSize else payloadSize

/-- The list of all sub-lengths of a chunked USB read. -/
def usbSubLengths (totalLen payloadSize : Nat) : List Nat :=
  (List.range (usbNumPackets totalLen payloadSize)).map
    (usbSubLen totalLen payloadSize)

/-- The command packets issued by `n` consecutive sub-reads starting at
packet index `idx` (mirrors the packet built at mcuboot.py lines 414–420). -/
def usbCmdPacketsFrom (address payloadSize memId remainder packets idx : Nat) :
    Nat → List CmdPacket
  | 0 => []
  | n + 1 =>
    ⟨CommandTag.READ_MEMORY, 0,
     [address + idx * payloadSize,
      if idx = packets - 1 ∧ remainder ≠ 0 then remainder else payloadSize,
      memId]⟩ ::
      usbCmdPacketsFrom address payloadSize memId remainder packets (idx + 1) n

/-- The progress-callback invocations produced while accumulating the given
chunks on top of `base` already-received bytes (second component is always
the total requested length). -/
def progressAdds (totalLen : Nat) : Nat → List (List Nat) → List (Nat × Nat)
  | _, [] => []
  | base, c :: cs =>
    (base + c.length, totalLen) :: progressAdds totalLen (base + c.length) cs

/-- Transport script of a sub-read whose command phase succeeds but whose
data phase delivers only `lastPart` and then times out. -/
def timeoutReadCycle (dlen : Nat) (lastPart : List Nat) : List RxItem :=
  [.packet (.readMemory CommandTag.READ_MEMORY StatusCode.SUCCESS dlen),
   .bytes lastPart,
   .timeout]

/-! ## Theorems: closed-interface guard (C6) -/

/-- C6: whenever the interface is not open, each of `_process_cmd`,
`_read_data` and `_send_data` raises `McuBootConnectionError` immediately
and leaves the session state completely unchanged: the last status code is
untouched and no `write_command`, `write_data` or `read` call is made (the
command log, data log and remaining transport script are those of the input
state). -/
theorem closed_interface_connection_error (st : MbootState)
    (pkt : CmdPacket) (cmdTag dlen : Nat) (useCb : Bool)
    (data : List (List Nat)) (hclosed : st.isOpened = false) :
    processCmd pkt st = .exn .connection st ∧
    readData cmdTag dlen useCb st = .exn .connection st ∧
    sendData cmdTag data useCb st = .exn .connection st := by
  refine ⟨?_, ?_, ?_⟩ <;> simp [processCmd, readData, sendData, hclosed]

/-- Witness for C6 at a concrete closed-interface state. -/
theorem closed_interface_connection_error_witness :
    processCmd ⟨3, 0, [0, 4, 0]⟩ ⟨0, false, false, none, none, [], [], [], []⟩ =
      .exn .connection ⟨0, false, false, none, none, [], [], [], []⟩ ∧
    readData 3 4 false ⟨0, false, false, none, none, [], [], [], []⟩ =
      .exn .connection ⟨0, false, false, none, none, [], [], [], []⟩ ∧
    sendData 4 [[1, 2]] false ⟨0, false, false, none, none, [], [], [], []⟩ =
      .exn .connection ⟨0, false, false, none, none, [], [], [], []⟩ :=
  closed_interface_connection_error ⟨0, false, false, none, none, [], [], [], []⟩
    ⟨3, 0, [0, 4, 0]⟩ 3 4 false [[1, 2]] rfl

/-! ## Theorems: reserved regions (C7, C10) -/

/-- C7: for every even-length list of raw words, decoding the
reserved-regions property produces, in order, exactly one region per
consecutive (start, end) word pair whose end word is nonzero (pairs with end
equal to zero are skipped), each with start and end equal to the pair's
words and size equal to `end - start + 1` (the latter holds definitionally
through `mkMemoryRegion`). -/
theorem reservedRegionsOf_even : ∀ (raw : List Nat), raw.length % 2 = 0 →
    reservedRegionsOf raw =
      some (((pairUp raw).filter (fun p => p.2 != 0)).map
        (fun p => mkMemoryRegion p.1 p.2))
  | [], _ => by simp [reservedRegionsOf, pairUp]
  | [_], h => by simp at h
  | a :: b :: rest, h => by
    have h2 : rest.length % 2 = 0 := by
      simp only [List.length_cons] at h
      omega
    have ih := reservedRegionsOf_even rest h2
    by_cases hb : b = 0
    · simp [reservedRegionsOf, pairUp, hb, ih]
    · simp [reservedRegionsOf, pairUp, hb, ih]

/-- Witness for C7 on a concrete even-length input: the pair `(7, 0)` is
skipped and the regions carry the pair words and `end - start + 1` sizes. -/
theorem reservedRegionsOf_even_witness :
    reservedRegionsOf [1, 5, 7, 0, 2, 9] =
      some [⟨1, 5, 5⟩, ⟨2, 9, 8⟩] := by
  have h := reservedRegionsOf_even [1, 5, 7, 0, 2, 9] (by decide)
  exact h.trans (by decide)

/-- C10: decoding the reserved-regions property is only total for an even
number of raw words: every odd-length raw word list reaches the out-of-range
access `raw_values[i + 1]` at the final even index (modelled by the `none`
result). -/
theorem reservedRegionsOf_odd : ∀ (raw : List Nat), raw.length % 2 = 1 →
    reservedRegionsOf raw = none
  | [], h => by simp at h
  | [_], _ => rfl
  | a :: b :: rest, h => by
    have h2 : rest.length % 2 = 1 := by
      simp only [List.length_cons] at h
      omega
    have ih := reservedRegionsOf_odd rest h2
    by_cases hb : b = 0 <;> simp [reservedRegionsOf, hb, ih]

/-- Witness for C10 at the concrete odd-length input `[7]`. -/
theorem reservedRegionsOf_odd_witness : reservedRegionsOf [7] = none :=
  reservedRegionsOf_odd [7] (by decide)

/-! ## Theorems: Version round trip (C9) -/

/-- `Char.ofNat` round-trips through `toNat` for code points below the
surrogate range. -/
theorem char_toNat_ofNat {n : Nat} (h : n < 0xD800) :
    (Char.ofNat n).toNat = n := by
  rw [Char.ofNat, dif_pos (Or.inl h : Nat.isValidChar n)]
  rfl

/-- Reassembling the four extracted bytes of a 32-bit value yields the value
back (bit arithmetic behind `Version.from_int` / `Version.to_int`). -/
theorem version_bytes_reassemble (v : Nat) (hv : v < 2 ^ 32) :
    ((v >>> 16) &&& 0xFF) <<< 16 ||| ((v >>> 8) &&& 0xFF) <<< 8 ||| (v &&& 0xFF)
      ||| ((v >>> 24) &&& 0xFF) <<< 24 = v := by
  have hff : (0xFF : Nat) = 2 ^ 8 - 1 := by norm_num
  have hmask : ∀ x : Nat, x &&& 0xFF = x % 2 ^ 8 := fun x => by
    rw [hff, Nat.and_pow_two_sub_one_eq_mod]
  have e24 : (v >>> 24) &&& 0xFF = v / 2 ^ 24 := by
    rw [Nat.shiftRight_eq_div_pow, hmask]
    exact Nat.mod_eq_of_lt (by omega)
  have e16 : (v >>> 16) &&& 0xFF = v / 2 ^ 16 % 2 ^ 8 := by
    rw [Nat.shiftRight_eq_div_pow, hmask]
  have e8 : (v >>> 8) &&& 0xFF = v / 2 ^ 8 % 2 ^ 8 := by
    rw [Nat.shiftRight_eq_div_pow, hmask]
  have e0 : v &&& 0xFF = v % 2 ^ 8 := hmask v
  rw [e24, e16, e8, e0, Nat.shiftLeft_eq, Nat.shiftLeft_eq, Nat.shiftLeft_eq]
  have hB : v / 2 ^ 16 % 2 ^ 8 < 2 ^ 8 := Nat.mod_lt _ (by norm_num)
  have hC : v / 2 ^ 8 % 2 ^ 8 < 2 ^ 8 := Nat.mod_lt _ (by norm_num)
  have hD : v % 2 ^ 8 < 2 ^ 8 := Nat.mod_lt _ (by norm_num)
  set A := v / 2 ^ 24 with hA
  set B := v / 2 ^ 16 % 2 ^ 8 with hBdef
  set C := v / 2 ^ 8 % 2 ^ 8 with hCdef
  set D := v % 2 ^ 8 with hDdef
  have s1 : B * 2 ^ 16 ||| C * 2 ^ 8 = 2 ^ 16 * B + C * 2 ^ 8 := by
    rw [mul_comm B]
    exact (Nat.mul_add_lt_is_or (by omega) B).symm
  have s2 : (2 ^ 16 * B + C * 2 ^ 8) ||| D = 2 ^ 16 * B + C * 2 ^ 8 + D := by
    have hshape : 2 ^ 16 * B + C * 2 ^ 8 = 2 ^ 8 * (2 ^ 8 * B + C) := by ring
    rw [hshape]
    exact (Nat.mul_add_lt_is_or hD (2 ^ 8 * B + C)).symm
  have s3 : (2 ^ 16 * B + C * 2 ^ 8 + D) ||| A * 2 ^ 24
      = 2 ^ 24 * A + (2 ^ 16 * B + C * 2 ^ 8 + D) := by
    rw [Nat.lor_comm, mul_comm A]
    exact (Nat.mul_add_lt_is_or (by omega) A).symm
  rw [s1, s2, s3]
  omega

/-- C9: for every 32-bit value `v`, `Version.to_int (Version.from_int v)`
returns `v` exactly when the top byte is strictly between 64 and 91 (an
ASCII upper-case letter); otherwise the mark is dropped and the result is
`v & 0x00FFFFFF`. -/
theorem version_roundtrip (v : Nat) (hv : v < 2 ^ 32) :
    versionToInt (versionFromInt v) =
      if 64 < (v >>> 24) &&& 0xFF ∧ (v >>> 24) &&& 0xFF < 91 then v
      else v &&& 0xFFFFFF := by
  by_cases hm : 64 < (v >>> 24) &&& 0xFF ∧ (v >>> 24) &&& 0xFF < 91
  · have hchar : (Char.ofNat ((v >>> 24) &&& 0xFF)).toNat = (v >>> 24) &&& 0xFF :=
      char_toNat_ofNat (by omega)
    simp only [versionFromInt, versionToInt, if_pos hm, hchar,
      Bool.false_eq_true, if_false]
    exact version_bytes_reassemble v hv
  · simp only [versionFromInt, versionToInt, if_neg hm]
    have hff : (0xFFFFFF : Nat) = 2 ^ 24 - 1 := by norm_num
    have hmask : ∀ x : Nat, x &&& 0xFF = x % 2 ^ 8 := fun x => by
      rw [show (0xFF : Nat) = 2 ^ 8 - 1 by norm_num, Nat.and_pow_two_sub_one_eq_mod]
    rw [hff, Nat.and_pow_two_sub_one_eq_mod, Nat.or_zero]
    have e16 : (v >>> 16) &&& 0xFF = v / 2 ^ 16 % 2 ^ 8 := by
      rw [Nat.shiftRight_eq_div_pow, hmask]
    have e8 : (v >>> 8) &&& 0xFF = v / 2 ^ 8 % 2 ^ 8 := by
      rw [Nat.shiftRight_eq_div_pow, hmask]
    rw [e16, e8, hmask, Nat.shiftLeft_eq, Nat.shiftLeft_eq]
    have hB : v / 2 ^ 16 % 2 ^ 8 < 2 ^ 8 := Nat.mod_lt _ (by norm_num)
    have hC : v / 2 ^ 8 % 2 ^ 8 < 2 ^ 8 := Nat.mod_lt _ (by norm_num)
    have hD : v % 2 ^ 8 < 2 ^ 8 := Nat.mod_lt _ (by norm_num)
    set B := v / 2 ^ 16 % 2 ^ 8
    set C := v / 2 ^ 8 % 2 ^ 8
    set D := v % 2 ^ 8
    have s1 : B * 2 ^ 16 ||| C * 2 ^ 8 = 2 ^ 16 * B + C * 2 ^ 8 := by
      rw [mul_comm B]
      exact (Nat.mul_add_lt_is_or (by omega) B).symm
    have s2 : (2 ^ 16 * B + C * 2 ^ 8) ||| D = 2 ^ 16 * B + C * 2 ^ 8 + D := by
      have hshape : 2 ^ 16 * B + C * 2 ^ 8 = 2 ^ 8 * (2 ^ 8 * B + C) := by ring
      rw [hshape]
      exact (Nat.mul_add_lt_is_or hD (2 ^ 8 * B + C)).symm
    rw [s1, s2]
    omega

/-- Witness for C9: the letter-marked value `0x4B010203` (mark `'K'`)
round-trips exactly, and `0x11010203` (top byte not a letter) loses its top
byte. -/
theorem version_roundtrip_witness :
    versionToInt (versionFromInt 0x4B010203) = 0x4B010203 ∧
    versionToInt (versionFromInt 0x11010203) = 0x00010203 := by
  have h1 := version_roundtrip 0x4B010203 (by norm_num)
  have h2 := version_roundtrip 0x11010203 (by norm_num)
  rw [if_pos (by decide)] at h1
  rw [if_neg (by decide)] at h2
  exact ⟨h1, h2.trans (by decide)⟩

/-! ## Theorems: status-code rendering (C5) -/

theorem hexChar_isUpperHexDigit {m : Nat} (hm : m < 16) :
    isUpperHexDigit (hexChar m) = true := by
  interval_cases m <;> decide

theorem hexCharVal_hexChar {m : Nat} (hm : m < 16) :
    hexCharVal (hexChar m) = m := by
  interval_cases m <;> decide

theorem hexDigitsAux_length_le :
    ∀ (fuel k n : Nat), n < 16 ^ k → (hexDigitsAux fuel n).length ≤ k := by
  intro fuel
  induction fuel with
  | zero => intro k n _; simp [hexDigitsAux]
  | succ fuel ih =>
    intro k n hn
    by_cases h0 : n = 0
    · simp [hexDigitsAux, h0]
    · match k with
      | 0 => omega
      | k + 1 =>
        have hdiv : n / 16 < 16 ^ k := by
          rw [Nat.div_lt_iff_lt_mul (by norm_num)]
          calc n < 16 ^ (k + 1) := hn
            _ = 16 ^ k * 16 := by rw [pow_succ]
        have := ih k (n / 16) hdiv
        simp only [hexDigitsAux, h0, if_false, List.length_append,
          List.length_cons, List.length_nil]
        omega

theorem hexDigitsAux_chars :
    ∀ (fuel n : Nat), ∀ c ∈ hexDigitsAux fuel n, isUpperHexDigit c = true := by
  intro fuel
  induction fuel with
  | zero => intro n c hc; simp [hexDigitsAux] at hc
  | succ fuel ih =>
    intro n c hc
    by_cases h0 : n = 0
    · simp [hexDigitsAux, h0] at hc
    · simp only [hexDigitsAux, h0, if_false, List.mem_append,
        List.mem_singleton] at hc
      rcases hc with hc | hc
      · exact ih (n / 16) c hc
      · subst hc
        exact hexChar_isUpperHexDigit (Nat.mod_lt _ (by norm_num))

theorem hexDigitsAux_val :
    ∀ (fuel n : Nat), n ≤ fuel → hexVal (hexDigitsAux fuel n) = n := by
  intro fuel
  induction fuel with
  | zero => intro n hn; interval_cases n; simp [hexDigitsAux, hexVal]
  | succ fuel ih =>
    intro n hn
    by_cases h0 : n = 0
    · simp [hexDigitsAux, h0, hexVal]
    · have hdiv : n / 16 ≤ fuel := by omega
      have hih := ih (n / 16) hdiv
      simp only [hexDigitsAux, h0, if_false, hexVal, List.foldl_append,
        List.foldl_cons, List.foldl_nil]
      simp only [hexVal] at hih
      rw [hih, hexCharVal_hexChar (Nat.mod_lt _ (by norm_num))]
      omega

theorem hexVal_replicate_zero (k : Nat) (ds : List Char) :
    hexVal (List.replicate k '0' ++ ds) = hexVal ds := by
  have hzero : ∀ j, List.foldl (fun acc c => 16 * acc + hexCharVal c) 0
      (List.replicate j '0') = 0 := by
    intro j
    induction j with
    | zero => rfl
    | succ j ihj => simpa [List.replicate_succ, hexCharVal] using ihj
  simp [hexVal, List.foldl_append, hzero]

theorem pyHexUpper8_spec (v : Nat) (hv : v < 2 ^ 32) :
    (pyHexUpper8 v).length = 8 ∧
    (∀ c ∈ (pyHexUpper8 v).data, isUpperHexDigit c = true) ∧
    hexVal (pyHexUpper8 v).data = v := by
  have hdata : (pyHexUpper8 v).data =
      List.replicate (8 - (if v = 0 then ['0'] else hexDigitsAux v v).length) '0'
        ++ (if v = 0 then ['0'] else hexDigitsAux v v) := rfl
  have hlen8 : (if v = 0 then ['0'] else hexDigitsAux v v).length ≤ 8 := by
    by_cases h0 : v = 0
    · simp [h0]
    · simp only [h0, if_false]
      exact hexDigitsAux_length_le v 8 v (by norm_num at hv ⊢; omega)
  refine ⟨?_, ?_, ?_⟩
  · show (pyHexUpper8 v).data.length = 8
    rw [hdata]
    simp only [List.length_append, List.length_replicate]
    omega
  · intro c hc
    rw [hdata] at hc
    simp only [List.mem_append, List.mem_replicate] at hc
    rcases hc with ⟨_, hc⟩ | hc
    · subst hc; decide
    · by_cases h0 : v = 0
      · simp [h0] at hc
        subst hc; decide
      · simp only [h0, if_false] at hc
        exact hexDigitsAux_chars v v c hc
  · rw [hdata, hexVal_replicate_zero]
    by_cases h0 : v = 0
    · simp [h0, hexVal, hexCharVal]
    · simp only [h0, if_false]
      exact hexDigitsAux_val v v (Nat.le_refl v)

/-- C5: the status rendering used when reporting results in `_read_data` and
`_send_data` is total over all 32-bit status-code values: it yields the
`StatusCode` member's label when the value is a known tag (lookup succeeds),
and otherwise `"0x"` followed by exactly eight upper-case hexadecimal digits
whose value is the raw status code. -/
theorem statusInfo_total_rendering (code : Nat) (hcode : code < 2 ^ 32) :
    (∀ label, statusCodeList.lookup code = some label → statusInfo code = label) ∧
    (statusCodeList.lookup code = none →
      statusInfo code = "0x" ++ pyHexUpper8 code ∧
      (pyHexUpper8 code).length = 8 ∧
      (∀ c ∈ (pyHexUpper8 code).data, isUpperHexDigit c = true) ∧
      hexVal (pyHexUpper8 code).data = code) := by
  constructor
  · intro label hl
    simp [statusInfo, hl]
  · intro hn
    have hs := pyHexUpper8_spec code hcode
    exact ⟨by simp [statusInfo, hn], hs.1, hs.2.1, hs.2.2⟩

/-- Witness for C5: the known code 0 renders as its label, and the unknown
code 2 renders as `"0x00000002"` (eight upper-case hexadecimal digits). -/
theorem statusInfo_total_rendering_witness :
    statusInfo 0 = "Success" ∧ statusInfo 2 = "0x00000002" ∧
    (pyHexUpper8 2).length = 8 := by
  have h0 := (statusInfo_total_rendering 0 (by norm_num)).1 "Success" (by decide)
  have h2 := (statusInfo_total_rendering 2 (by norm_num)).2 (by decide)
  refine ⟨h0, ?_, h2.2.1⟩
  rw [h2.1]
  decide

/-! ## Theorems: property decoding (C2, C4, C8) -/

/-- C8: for every property tag not present in the base dispatch table and
every (non-empty) raw word list, `parse_property_value` with no family
returns an integer-list value in hexadecimal display format carrying the
UNKNOWN tag (0xFF) and the raw word list unchanged. -/
theorem parse_unknown_tag (tag : Nat) (raw : List Nat)
    (hmiss : PROPERTIES.lookup tag = none) (hraw : raw ≠ []) :
    parsePropertyValue tag raw none none =
      some ⟨0xFF, "Unknown", "Unknown property", .intList "hex" ", " raw⟩ := by
  show parseWith PROPERTIES none tag raw none = _
  unfold parseWith
  rw [hmiss]
  rfl

/-- Witness for C8 at the concrete unknown tag 0x23 (absent from the base
table, whose keys are 0x01–0x22 plus 0x24, 0x25 and 0xFF). -/
theorem parse_unknown_tag_witness :
    parsePropertyValue 0x23 [7, 9] none none =
      some ⟨0xFF, "Unknown", "Unknown property", .intList "hex" ", " [7, 9]⟩ :=
  parse_unknown_tag 0x23 [7, 9] rfl (by decide)

/-- C2 (amended): for every family whose database entry names an override
series and every tag slot listed in that series' override table,
`parse_property_value` decodes the raw words with the override table's
decoding strategy and returns a value whose name and desc are the
family-specific label and description; the same call with no family decodes
with the base table's strategy and base label/description. -/
theorem parse_property_override (series : String)
    (ovTable : List (Nat × PropEntry)) (ovEnum : List (Nat × String × String))
    (tag : Nat) (e : PropEntry) (v : Nat) (vs : List Nat)
    (hser : (series, ovTable) ∈ PROPERTIES_OVERRIDE)
    (henum : (series, ovEnum) ∈ PROPERTY_TAG_OVERRIDE)
    (htag : (tag, e) ∈ ovTable) :
    ∃ core ovName ovDesc baseEntry baseCore baseName baseDesc,
      decodeEntry e (v :: vs) none = some core ∧
      ovEnum.lookup tag = some (ovName, ovDesc) ∧
      PROPERTIES.lookup tag = some baseEntry ∧
      decodeEntry baseEntry (v :: vs) none = some baseCore ∧
      propertyTagList.lookup tag = some (baseName, baseDesc) ∧
      parsePropertyValue tag (v :: vs) none (some ⟨"family", series⟩) =
        some ⟨tag, ovName, ovDesc, core⟩ ∧
      parsePropertyValue tag (v :: vs) none none =
        some ⟨tag, baseName, baseDesc, baseCore⟩ := by
  simp only [PROPERTIES_OVERRIDE, List.mem_cons, List.not_mem_nil, or_false,
    Prod.mk.injEq] at hser
  rcases hser with ⟨rfl, rfl⟩ | ⟨rfl, rfl⟩ | ⟨rfl, rfl⟩ <;>
    simp only [PROPERTY_TAG_OVERRIDE, List.mem_cons, List.not_mem_nil,
      or_false, Prod.mk.injEq] at henum <;>
    [rcases henum with ⟨-, rfl⟩ | ⟨hbad, -⟩ | ⟨hbad, -⟩;
     rcases henum with ⟨hbad, -⟩ | ⟨-, rfl⟩ | ⟨hbad, -⟩;
     rcases henum with ⟨hbad, -⟩ | ⟨hbad, -⟩ | ⟨-, rfl⟩] <;>
    first
    | exact absurd hbad (by decide)
    | (simp only [PROPERTIES_KW47XX, PROPERTIES_KW45XX, PROPERTIES_MCXA1XX,
        List.mem_cons, List.not_mem_nil, or_false, Prod.mk.injEq] at htag
       rcases htag with ⟨rfl, rfl⟩ | ⟨rfl, rfl⟩ | ⟨rfl, rfl⟩ | ⟨rfl, rfl⟩ <;>
         exact ⟨_, _, _, _, _, _, _, rfl, rfl, rfl, rfl, rfl, rfl, rfl⟩)
    | (simp only [PROPERTIES_KW47XX, PROPERTIES_KW45XX, PROPERTIES_MCXA1XX,
        List.mem_cons, List.not_mem_nil, or_false, Prod.mk.injEq] at htag
       rcases htag with ⟨rfl, rfl⟩ <;>
         exact ⟨_, _, _, _, _, _, _, rfl, rfl, rfl, rfl, rfl, rfl, rfl⟩)

/-- Witness for C2 at the concrete slot: tag 0x0A under `kw45_series`
decodes as the overridden `VerifyErase` boolean (ENABLE/DISABLE), while the
same tag with no family decodes as the base `VerifyWrites` boolean
(ON/OFF). -/
theorem parse_property_override_witness :
    parsePropertyValue 0x0A [1] none (some ⟨"family", "kw45_series"⟩) =
      some ⟨0x0A, "VerifyErase", "Verify Erase",
        .boolVal [1] "ENABLE" [0] "DISABLE" 1⟩ ∧
    parsePropertyValue 0x0A [1] none none =
      some ⟨0x0A, "VerifyWrites", "Verify Writes",
        .boolVal [1] "ON" [0] "OFF" 1⟩ := by
  obtain ⟨core, ovName, ovDesc, baseEntry, baseCore, baseName, baseDesc,
      h1, h2, h3, h4, h5, h6, h7⟩ :=
    parse_property_override "kw45_series" PROPERTIES_KW45XX
      propertyTagKw45List 0x0A (.boolVal [1] "ENABLE" [0] "DISABLE") 1 []
      (by decide) (by decide) (by decide)
  have hc : core = .boolVal [1] "ENABLE" [0] "DISABLE" 1 :=
    Option.some.inj (h1.symm.trans rfl)
  have hov : (ovName, ovDesc) = ("VerifyErase", "Verify Erase") :=
    Option.some.inj (h2.symm.trans rfl)
  have hbc : baseCore = .boolVal [1] "ON" [0] "OFF" 1 := by
    have hbe : baseEntry = .boolVal [1] "ON" [0] "OFF" :=
      Option.some.inj (h3.symm.trans rfl)
    rw [hbe] at h4
    exact Option.some.inj (h4.symm.trans rfl)
  have hbn : (baseName, baseDesc) = ("VerifyWrites", "Verify Writes") :=
    Option.some.inj (h5.symm.trans rfl)
  injection hov with hov1 hov2
  injection hbn with hbn1 hbn2
  subst hc hov1 hov2 hbc hbn1 hbn2
  exact ⟨h6, h7⟩

/-- Counterexample for C2 as stated: no configured family override series
remaps tag 0x1E at all; moreover, decoding tag 0x1E under an
override-bearing family raises (the override tag enumeration has no member
0x1E, so the rename `from_tag` fails), while with no family it decodes as
the base `ByteWriteTimeoutMs` integer. -/
theorem parse_override_0x1E_counterexample :
    (∀ p ∈ PROPERTIES_OVERRIDE, p.2.lookup 0x1E = none) ∧
    parsePropertyValue 0x1E [5] none (some ⟨"family", "kw45_series"⟩) = none ∧
    parsePropertyValue 0x1E [5] none none =
      some ⟨0x1E, "ByteWriteTimeoutMs", "Byte Write Timeout in ms",
        .intVal "dec" 5⟩ :=
  ⟨by decide, rfl, rfl⟩

/-- C4 (amended): decoding CURRENT_VERSION (tag 0x01) builds the version
from the first raw word only (the remaining raw words are ignored),
extracting mark, major, minor and fixation as 8-bit byte fields of that
word (mark kept only when it is an ASCII upper-case letter); in particular
raw words `[0x01, 0x02, 0x03]` decode to the version `0.0.1`, rendered in
the "optional one-letter mark prefix followed by major.minor.fixation"
format. -/
theorem currentVersion_decode (w : Nat) (rest : List Nat) :
    parsePropertyValue 0x01 (w :: rest) none none =
      some ⟨0x01, "CurrentVersion", "Current Version",
        .version (versionFromInt w)⟩ ∧
    versionFromInt w =
      { mark := if 64 < w / 2 ^ 24 % 2 ^ 8 ∧ w / 2 ^ 24 % 2 ^ 8 < 91
          then some (Char.ofNat (w / 2 ^ 24 % 2 ^ 8)) else none,
        major := w / 2 ^ 16 % 2 ^ 8,
        minor := w / 2 ^ 8 % 2 ^ 8,
        fixation := w % 2 ^ 8 } ∧
    parsePropertyValue 0x01 [0x01, 0x02, 0x03] none none =
      some ⟨0x01, "CurrentVersion", "Current Version",
        .version ⟨none, 0, 0, 1⟩⟩ ∧
    versionToStr ⟨none, 0, 0, 1⟩ = "0.0.1" ∧
    (∀ (c : Char) (mj mi fx : Nat), versionToStr ⟨some c, mj, mi, fx⟩ =
      String.mk [c] ++ (toString mj ++ "." ++ toString mi ++ "." ++ toString fx)) := by
  refine ⟨rfl, ?_, by decide, by decide, ?_⟩
  · have hmask : ∀ x : Nat, x &&& 0xFF = x % 2 ^ 8 := fun x => by
      rw [show (0xFF : Nat) = 2 ^ 8 - 1 by norm_num, Nat.and_pow_two_sub_one_eq_mod]
    simp only [versionFromInt, Nat.shiftRight_eq_div_pow, hmask]
  · intro c mj mi fx
    simp [versionToStr]

/-- Counterexample for C4 as stated ("nibble extraction"): the code extracts
8-bit byte fields, not 4-bit nibbles.  On the single raw word `0x123` the
code yields version `0.1.35`, whereas nibble extraction per the claim's
words would yield `1.2.3`. -/
theorem currentVersion_nibble_counterexample :
    versionToStr (versionFromInt 0x123) = "0.1.35" ∧
    versionToStr (versionFromIntNibbles 0x123) = "1.2.3" ∧
    versionFromInt 0x123 ≠ versionFromIntNibbles 0x123 := by
  decide

/-! ## Theorems: chunked USB read (C1, C3) -/

theorem usbLoop_cycle (address P memId remainder packets L : Nat)
    (useCb : Bool) (idx : Nat) (acc : List Nat) (st : MbootState)
    (c : List Nat) (tail2 : List RxItem)
    (hopen : st.isOpened = true) (hexc : st.cmdException = false)
    (hreads : st.reads = okReadCycle c ++ tail2)
    (hidx : idx < packets)
    (hlen : c.length =
      (if idx = packets - 1 ∧ remainder ≠ 0 then remainder else P)) :
    readMemoryUsbLoop address P memId remainder packets L useCb idx acc st =
    readMemoryUsbLoop address P memId remainder packets L useCb (idx + 1)
      (acc ++ c)
      { st with reads := tail2,
                statusCode := StatusCode.SUCCESS,
                cmdLog := st.cmdLog ++
                  [⟨CommandTag.READ_MEMORY, 0,
                    [address + idx * P, c.length, memId]⟩],
                progressLog := st.progressLog ++
                  (if useCb then [(acc.length + c.length, L)] else []) } := by
  have hreads' : st.reads =
      .packet (.readMemory CommandTag.READ_MEMORY StatusCode.SUCCESS c.length)
        :: .bytes c
        :: .packet (.generic CommandTag.READ_MEMORY StatusCode.SUCCESS)
        :: tail2 := by
    simpa [okReadCycle] using hreads
  rw [readMemoryUsbLoop, dif_pos hidx]
  simp only [← hlen]
  cases useCb <;>
    simp [processCmd, hopen, hreads', processCmdFinish, hexc, Outcome.bind,
      CmdResponse.status, readData, readDataLoop, StatusCode.SUCCESS,
      StatusCode.NO_RESPONSE, CommandTag.READ_MEMORY]

theorem usbLoop_cycles (address P memId remainder packets L : Nat)
    (useCb : Bool) :
    ∀ (chunks : List (List Nat)) (idx : Nat) (acc : List Nat)
      (st : MbootState) (tail : List RxItem),
      st.isOpened = true → st.cmdException = false →
      st.reads = okReadScript chunks ++ tail →
      idx + chunks.length ≤ packets →
      (∀ j cj, chunks[j]? = some cj → cj.length =
        (if idx + j = packets - 1 ∧ remainder ≠ 0 then remainder else P)) →
      readMemoryUsbLoop address P memId remainder packets L useCb idx acc st =
      readMemoryUsbLoop address P memId remainder packets L useCb
        (idx + chunks.length) (acc ++ chunks.flatten)
        { st with reads := tail,
                  statusCode :=
                    if chunks.isEmpty then st.statusCode else StatusCode.SUCCESS,
                  cmdLog := st.cmdLog ++
                    usbCmdPacketsFrom address P memId remainder packets idx
                      chunks.length,
                  progressLog := st.progressLog ++
                    (if useCb then progressAdds L acc.length chunks else []) } := by
  intro chunks
  induction chunks with
  | nil =>
    intro idx acc st tail hopen hexc hreads hle hlens
    simp only [okReadScript, List.map_nil, List.flatten_nil,
      List.nil_append] at hreads
    subst hreads
    simp [usbCmdPacketsFrom, progressAdds]
  | cons c cs ih =>
    intro idx acc st tail hopen hexc hreads hle hlens
    have hreads1 : st.reads = okReadCycle c ++ (okReadScript cs ++ tail) := by
      simpa [okReadScript, List.append_assoc] using hreads
    have hidx : idx < packets := by
      simp only [List.length_cons] at hle
      omega
    have hlen0 : c.length =
        (if idx = packets - 1 ∧ remainder ≠ 0 then remainder else P) := by
      simpa using hlens 0 c (by simp)
    rw [usbLoop_cycle address P memId remainder packets L useCb idx acc st c _
      hopen hexc hreads1 hidx hlen0]
    rw [ih (idx + 1) (acc ++ c) _ tail (by simp [hopen]) (by simp [hexc])
      (by simp) (by simp only [List.length_cons] at hle; omega)
      (by
        intro j cj hj
        have := hlens (j + 1) cj (by simpa using hj)
        simpa [Nat.add_assoc, Nat.add_comm, Nat.add_left_comm] using this)]
    cases useCb <;>
      simp [usbCmdPacketsFrom, progressAdds, hlen0, List.append_assoc,
        Nat.add_assoc, Nat.add_comm, Nat.add_left_comm]

theorem usbLoop_done (address P memId remainder packets L : Nat)
    (useCb : Bool) (idx : Nat) (acc : List Nat) (st : MbootState)
    (h : ¬ idx < packets) :
    readMemoryUsbLoop address P memId remainder packets L useCb idx acc st =
      .ok acc st := by
  rw [readMemoryUsbLoop, dif_neg h]

theorem usbCmdPacketsFrom_eq_map (address P memId remainder packets : Nat) :
    ∀ (n idx : Nat),
      usbCmdPacketsFrom address P memId remainder packets idx n =
      (List.range n).map (fun i =>
        ⟨CommandTag.READ_MEMORY, 0,
         [address + (idx + i) * P,
          if idx + i = packets - 1 ∧ remainder ≠ 0 then remainder else P,
          memId]⟩) := by
  intro n
  induction n with
  | zero => intro idx; simp [usbCmdPacketsFrom]
  | succ n ih =>
    intro idx
    rw [usbCmdPacketsFrom, List.range_succ_eq_map, List.map_cons, ih (idx + 1),
      List.map_map]
    simp only [Nat.add_zero]
    congr 1
    apply List.map_congr_left
    intro i _
    simp only [Function.comp, Nat.succ_eq_add_one,
      show idx + 1 + i = idx + (i + 1) from by omega]

theorem progressAdds_eq_map (totalLen : Nat) :
    ∀ (cs : List (List Nat)) (base : Nat),
      progressAdds totalLen base cs =
      (List.range cs.length).map (fun i =>
        (base + ((cs.map List.length).take (i + 1)).sum, totalLen)) := by
  intro cs
  induction cs with
  | nil => intro base; simp [progressAdds]
  | cons c cs ih =>
    intro base
    rw [progressAdds, ih (base + c.length), List.length_cons,
      List.range_succ_eq_map, List.map_cons, List.map_map]
    have hhead : ((base + c.length, totalLen) : Nat × Nat) =
        (base + (List.take (0 + 1) (List.map List.length (c :: cs))).sum,
          totalLen) := by
      simp
    have htail : List.map (fun i =>
          (base + c.length + (List.take (i + 1) (List.map List.length cs)).sum,
            totalLen)) (List.range cs.length) =
        List.map ((fun i =>
          (base + (List.take (i + 1) (List.map List.length (c :: cs))).sum,
            totalLen)) ∘ Nat.succ) (List.range cs.length) := by
      apply List.map_congr_left
      intro i _
      simp only [Function.comp, List.map_cons, List.take_succ_cons,
        List.sum_cons, Nat.succ_eq_add_one, Prod.mk.injEq]
      exact ⟨by omega, trivial⟩
    rw [hhead, htail]

/-- Sum of a constant map over `range`. -/
theorem sum_range_const (P : Nat) : ∀ (m : Nat),
    (((List.range m).map (fun _ => P)).sum) = m * P := by
  intro m
  induction m with
  | zero => simp
  | succ m ih => rw [List.range_succ]; simp [ih, Nat.succ_mul]

/-- Take-prefix sums of the sub-length plan: after `k` sub-reads exactly
`min (k * P) L` bytes are planned. -/
theorem usbSubLengths_take_sum (L P : Nat) (hP : 0 < P) (k : Nat) :
    (((usbSubLengths L P).take k).sum) = min (k * P) L := by
  have hdm : P * (L / P) + L % P = L := Nat.div_add_mod L P
  by_cases hr : L % P = 0
  · have hn : usbNumPackets L P = L / P := by simp [usbNumPackets, hr]
    have hL : L / P * P = L := by
      rw [Nat.mul_comm]
      omega
    have hconst : usbSubLengths L P = (List.range (L / P)).map (fun _ => P) := by
      rw [usbSubLengths, hn]
      apply List.map_congr_left
      intro i _
      simp [usbSubLen, hr]
    rw [hconst, ← List.map_take, List.take_range, sum_range_const]
    rcases Nat.le_total k (L / P) with hk | hk
    · rw [Nat.min_eq_left hk, Nat.min_eq_left]
      calc k * P ≤ L / P * P := Nat.mul_le_mul_right P hk
        _ = L := hL
    · rw [Nat.min_eq_right hk, hL, Nat.min_eq_right]
      calc L = L / P * P := hL.symm
        _ ≤ k * P := Nat.mul_le_mul_right P hk
  · have hn : usbNumPackets L P = L / P + 1 := by simp [usbNumPackets, hr]
    rw [usbSubLengths, hn, ← List.map_take, List.take_range]
    rcases Nat.lt_or_ge k (L / P + 1) with hk | hk
    · have hmin : min k (L / P + 1) = k := Nat.min_eq_left (by omega)
      rw [hmin]
      have hconst : (List.range k).map (usbSubLen L P) =
          (List.range k).map (fun _ => P) := by
        apply List.map_congr_left
        intro i hi
        simp only [List.mem_range] at hi
        have : ¬ (i = usbNumPackets L P - 1 ∧ L % P ≠ 0) := by
          rw [hn]
          simp only [Nat.add_sub_cancel]
          omega
        simp [usbSubLen, this]
      have h1 : k * P ≤ L / P * P := Nat.mul_le_mul_right P (by omega)
      have h2 : L / P * P ≤ L := by rw [Nat.mul_comm]; omega
      rw [hconst, sum_range_const, Nat.min_eq_left (by omega)]
    · have hmin : min k (L / P + 1) = L / P + 1 := Nat.min_eq_right hk
      rw [hmin, List.range_succ, List.map_append, List.sum_append]
      have hconst : (List.range (L / P)).map (usbSubLen L P) =
          (List.range (L / P)).map (fun _ => P) := by
        apply List.map_congr_left
        intro i hi
        simp only [List.mem_range] at hi
        have : ¬ (i = usbNumPackets L P - 1 ∧ L % P ≠ 0) := by
          rw [hn]
          simp only [Nat.add_sub_cancel]
          omega
        simp [usbSubLen, this]
      have hlast : usbSubLen L P (L / P) = L % P := by
        have hcond : L / P = usbNumPackets L P - 1 ∧ L % P ≠ 0 := by
          rw [hn]
          exact ⟨(Nat.add_sub_cancel (L / P) 1).symm, hr⟩
        rw [usbSubLen, if_pos hcond]
      rw [hconst, sum_range_const, List.map_cons, List.map_nil,
        List.sum_cons, List.sum_nil, hlast]
      have h2 : L / P * P = P * (L / P) := Nat.mul_comm _ _
      have h3 : L ≤ k * P := by
        have h4 : (L / P + 1) * P ≤ k * P := Nat.mul_le_mul_right P hk
        have h5 : (L / P + 1) * P = L / P * P + P := by ring
        have h6 : L % P < P := Nat.mod_lt _ hP
        have h7 : L / P * P = P * (L / P) := Nat.mul_comm _ _
        omega
      rw [Nat.min_eq_right h3]
      omega

/-- The planned sub-lengths sum to exactly the requested length. -/
theorem usbSubLengths_sum (L P : Nat) (hP : 0 < P) :
    (usbSubLengths L P).sum = L := by
  have h := usbSubLengths_take_sum L P hP (usbNumPackets L P)
  have hlen : (usbSubLengths L P).length = usbNumPackets L P := by
    simp [usbSubLengths]
  rw [← hlen, List.take_length] at h
  rw [h, hlen, Nat.min_eq_right]
  have hdm : P * (L / P) + L % P = L := Nat.div_add_mod L P
  by_cases hr : L % P = 0
  · simp only [usbNumPackets, hr, ne_eq, not_true_eq_false, if_false,
      Nat.add_zero]
    rw [Nat.mul_comm]
    omega
  · simp only [usbNumPackets, hr, ne_eq, not_false_eq_true, if_true]
    have h5 : (L / P + 1) * P = L / P * P + P := by ring
    have h6 : L % P < P := Nat.mod_lt _ hP
    have h2 : L / P * P = P * (L / P) := Nat.mul_comm _ _
    omega

/-- The number of sub-reads is the ceiling of `L / P`: one less would not
cover `L`, and the plan covers at least `L`. -/
theorem usbNumPackets_ceil (L P : Nat) (hP : 0 < P) (hL : 0 < L) :
    L ≤ usbNumPackets L P * P ∧ (usbNumPackets L P - 1) * P < L ∧
    0 < usbNumPackets L P := by
  have hdm : P * (L / P) + L % P = L := Nat.div_add_mod L P
  have h6 : L % P < P := Nat.mod_lt _ hP
  by_cases hr : L % P = 0
  · have hn : usbNumPackets L P = L / P := by simp [usbNumPackets, hr]
    have hq : 0 < L / P := by
      rcases Nat.eq_zero_or_pos (L / P) with h | h
      · rw [h] at hdm; omega
      · exact h
    refine ⟨?_, ?_, by rw [hn]; exact hq⟩
    · rw [hn, Nat.mul_comm]; omega
    · rw [hn]
      have : (L / P - 1) * P + P = L / P * P := by
        have : L / P - 1 + 1 = L / P := by omega
        calc (L / P - 1) * P + P = (L / P - 1 + 1) * P := by ring
          _ = L / P * P := by rw [this]
      have h2 : L / P * P = P * (L / P) := Nat.mul_comm _ _
      omega
  · have hn : usbNumPackets L P = L / P + 1 := by simp [usbNumPackets, hr]
    refine ⟨?_, ?_, by rw [hn]; exact Nat.succ_pos _⟩
    · rw [hn]
      have h5 : (L / P + 1) * P = L / P * P + P := by ring
      have h2 : L / P * P = P * (L / P) := Nat.mul_comm _ _
      omega
    · rw [hn]
      simp only [Nat.add_sub_cancel]
      have h2 : L / P * P = P * (L / P) := Nat.mul_comm _ _
      omega

/-- C3: on the USB non-fast path with negotiated packet size `P` and
requested length `L > 0`, against a transport script serving every sub-read
successfully, the engine issues exactly `ceil(L / P)` READ_MEMORY
sub-commands, the `i`-th requesting `address + i * P` with sub-length `P`
(the last requesting `L mod P` when `P` does not divide `L`); the
sub-lengths sum to `L`, and the progress callback is invoked after each
chunk with the accumulated byte count `min ((i + 1) * P) L`. -/
theorem read_memory_usb_chunking (address L P : Nat)
    (chunks : List (List Nat)) (st : MbootState)
    (hL : 0 < L) (hP : 0 < P)
    (hopen : st.isOpened = true) (hexc : st.cmdException = false)
    (hmps : st.maxPacketSize = some P)
    (hreads : st.reads = okReadScript chunks)
    (hlens : chunks.map List.length = usbSubLengths L P) :
    ∃ stf,
      readMemory address L 0 true false true st =
        .ok (some chunks.flatten) stf ∧
      stf.cmdLog = st.cmdLog ++ (List.range (usbNumPackets L P)).map (fun i =>
        ⟨CommandTag.READ_MEMORY, 0, [address + i * P, usbSubLen L P i, 0]⟩) ∧
      stf.progressLog = st.progressLog ++
        (List.range (usbNumPackets L P)).map (fun i =>
          (min ((i + 1) * P) L, L)) ∧
      stf.statusCode = StatusCode.SUCCESS ∧ stf.reads = [] ∧
      chunks.length = usbNumPackets L P ∧
      chunks.flatten.length = L ∧
      (usbSubLengths L P).sum = L ∧
      L ≤ usbNumPackets L P * P ∧ (usbNumPackets L P - 1) * P < L := by
  have hnum : chunks.length = usbNumPackets L P := by
    have h1 : (chunks.map List.length).length = (usbSubLengths L P).length := by
      rw [hlens]
    simpa [usbSubLengths] using h1
  have hsum := usbSubLengths_sum L P hP
  have hceil := usbNumPackets_ceil L P hP hL
  have hflat : chunks.flatten.length = L := by
    rw [List.length_flatten, hlens, hsum]
  have hne : chunks.isEmpty = false := by
    cases chunks with
    | nil =>
      exfalso
      simp only [List.length_nil] at hnum
      omega
    | cons c cs => rfl
  have hlens' : ∀ j cj, chunks[j]? = some cj → cj.length =
      (if 0 + j = usbNumPackets L P - 1 ∧ L % P ≠ 0 then L % P else P) := by
    intro j cj hj
    have h1 : (usbSubLengths L P)[j]? = some cj.length := by
      rw [← hlens]
      simp [hj]
    have hjn : j < usbNumPackets L P := by
      by_contra hc
      rw [List.getElem?_eq_none (by simpa [usbSubLengths] using hc)] at h1
      exact Option.noConfusion h1
    rw [usbSubLengths, List.getElem?_map, List.getElem?_range hjn,
      show Option.map (usbSubLen L P) (some j) = some (usbSubLen L P j)
        from rfl] at h1
    have h2 := (Option.some.inj h1).symm
    rw [h2, usbSubLen, Nat.zero_add]
  have hcycles := usbLoop_cycles address P 0 (L % P) (usbNumPackets L P) L
    true chunks 0 [] st [] hopen hexc (by simpa using hreads)
    (by omega) hlens'
  rw [usbLoop_done address P 0 (L % P) (usbNumPackets L P) L true
    (0 + chunks.length) (([] : List Nat) ++ chunks.flatten) _
    (by omega)] at hcycles
  simp only [List.nil_append, hne, Bool.false_eq_true, if_false,
    eq_self_iff_true, if_true] at hcycles
  have hrun : readMemory address L 0 true false true st =
      .ok (some chunks.flatten)
        { st with reads := [], statusCode := StatusCode.SUCCESS,
                  cmdLog := st.cmdLog ++ usbCmdPacketsFrom address P 0 (L % P)
                    (usbNumPackets L P) 0 chunks.length,
                  progressLog := st.progressLog ++ progressAdds L 0 chunks } := by
    rw [readMemory]
    rw [if_pos (⟨rfl, rfl⟩ : (true = true ∧ false = false))]
    simp only [getMaxPacketSize, hmps, Outcome.bind]
    rw [show clampDownMemoryId 0 = 0 from rfl]
    rw [show (L / P + if L % P ≠ 0 then 1 else 0) = usbNumPackets L P from rfl]
    rw [hcycles]
    simp [Outcome.bind, hmps]
  refine ⟨_, hrun, ?_, ?_, rfl, rfl, hnum, hflat, hsum, hceil.1, hceil.2.1⟩
  · show st.cmdLog ++ _ = st.cmdLog ++ _
    rw [usbCmdPacketsFrom_eq_map, hnum]
    congr 1
    apply List.map_congr_left
    intro i _
    rw [usbSubLen, Nat.zero_add]
  · show st.progressLog ++ _ = st.progressLog ++ _
    rw [progressAdds_eq_map, hnum]
    congr 1
    apply List.map_congr_left
    intro i _
    rw [hlens, usbSubLengths_take_sum L P hP (i + 1), Nat.zero_add]

/-- Witness for C3: a 5-byte read with packet size 2 issues exactly 3
sub-commands at addresses 256, 258, 260 with lengths 2, 2, 1, and the
progress callback reports 2, 4 and 5 accumulated bytes. -/
theorem read_memory_usb_chunking_witness :
    ∃ stf, readMemory 256 5 0 true false true
        ⟨0, true, false, some 2, none,
         okReadScript [[10, 11], [12, 13], [14]], [], [], []⟩ =
      .ok (some [10, 11, 12, 13, 14]) stf ∧
      stf.cmdLog =
        [⟨3, 0, [256, 2, 0]⟩, ⟨3, 0, [258, 2, 0]⟩, ⟨3, 0, [260, 1, 0]⟩] ∧
      stf.progressLog = [(2, 5), (4, 5), (5, 5)] := by
  obtain ⟨stf, h1, h2, h3, -, -, -, -, -, -, -⟩ :=
    read_memory_usb_chunking 256 5 2 [[10, 11], [12, 13], [14]]
      ⟨0, true, false, some 2, none,
       okReadScript [[10, 11], [12, 13], [14]], [], [], []⟩
      (by norm_num) (by norm_num) rfl rfl rfl rfl (by decide)
  exact ⟨stf, h1.trans rfl, h2.trans (by decide), h3.trans (by decide)⟩

theorem usbLoop_timeout_cycle (address P memId remainder packets L : Nat)
    (useCb : Bool) (idx : Nat) (acc : List Nat) (st : MbootState)
    (lastPart : List Nat) (tail2 : List RxItem)
    (hopen : st.isOpened = true) (hexc : st.cmdException = false)
    (hreads : st.reads = timeoutReadCycle
      (if idx = packets - 1 ∧ remainder ≠ 0 then remainder else P) lastPart
        ++ tail2)
    (hidx : idx < packets)
    (hlt : lastPart.length <
      (if idx = packets - 1 ∧ remainder ≠ 0 then remainder else P)) :
    readMemoryUsbLoop address P memId remainder packets L useCb idx acc st =
      .ok (acc ++ lastPart)
        { st with reads := tail2,
                  statusCode := StatusCode.NO_RESPONSE,
                  cmdLog := st.cmdLog ++
                    [⟨CommandTag.READ_MEMORY, 0,
                      [address + idx * P,
                       if idx = packets - 1 ∧ remainder ≠ 0 then remainder
                       else P,
                       memId]⟩],
                  progressLog := st.progressLog ++
                    (if useCb then [(acc.length + lastPart.length, L)]
                     else []) } := by
  have hreads' : st.reads =
      .packet (.readMemory CommandTag.READ_MEMORY StatusCode.SUCCESS
        (if idx = packets - 1 ∧ remainder ≠ 0 then remainder else P))
        :: .bytes lastPart :: .timeout :: tail2 := by
    simpa [timeoutReadCycle] using hreads
  have hnlt : ¬ ((if idx = packets - 1 ∧ remainder ≠ 0 then remainder else P)
      < lastPart.length) := by omega
  rw [readMemoryUsbLoop, dif_pos hidx]
  cases useCb <;>
    simp [processCmd, hopen, hreads', processCmdFinish, hexc, Outcome.bind,
      CmdResponse.status, readData, readDataLoop, StatusCode.SUCCESS,
      StatusCode.NO_RESPONSE, CommandTag.READ_MEMORY, hlt, hnlt]

theorem usbLoop_failcmd (address P memId remainder packets L : Nat)
    (useCb : Bool) (idx : Nat) (acc : List Nat) (st : MbootState)
    (failStatus dlen : Nat) (tail2 : List RxItem)
    (hopen : st.isOpened = true) (hexc : st.cmdException = false)
    (hreads : st.reads =
      .packet (.readMemory CommandTag.READ_MEMORY failStatus dlen) :: tail2)
    (hidx : idx < packets)
    (hfail : failStatus ≠ StatusCode.SUCCESS) :
    readMemoryUsbLoop address P memId remainder packets L useCb idx acc st =
      .ok []
        { st with reads := tail2,
                  statusCode := failStatus,
                  cmdLog := st.cmdLog ++
                    [⟨CommandTag.READ_MEMORY, 0,
                      [address + idx * P,
                       if idx = packets - 1 ∧ remainder ≠ 0 then remainder
                       else P,
                       memId]⟩] } := by
  rw [readMemoryUsbLoop, dif_pos hidx]
  simp [processCmd, hopen, hreads, processCmdFinish, hexc, Outcome.bind,
    CmdResponse.status, StatusCode.SUCCESS, hfail]
  intro hcontra
  exact absurd hcontra hfail

/-- C1: on the USB non-fast path with the session not configured to raise,
(a) when a sub-read's data phase times out after `k < L` bytes have
accumulated in total, `read_memory` returns exactly those `k` bytes — no
exception — and the session's last status code is NO_RESPONSE; (b) when a
sub-read's command response instead carries an explicit non-success status,
no data is returned (`b""`). -/
theorem read_memory_usb_partial (address L P : Nat)
    (chunks : List (List Nat)) (lastPart : List Nat) (failStatus : Nat)
    (hL : 0 < L) (hP : 0 < P)
    (hm : chunks.length < usbNumPackets L P)
    (hlens : ∀ j cj, chunks[j]? = some cj → cj.length = usbSubLen L P j)
    (hlast : lastPart.length < usbSubLen L P chunks.length)
    (hfail : failStatus ≠ StatusCode.SUCCESS) :
    (∀ st : MbootState, st.isOpened = true → st.cmdException = false →
      st.maxPacketSize = some P →
      st.reads = okReadScript chunks ++
        timeoutReadCycle (usbSubLen L P chunks.length) lastPart →
      ∃ stf, readMemory address L 0 false false true st =
          .ok (some (chunks.flatten ++ lastPart)) stf ∧
        stf.statusCode = StatusCode.NO_RESPONSE ∧
        (chunks.flatten ++ lastPart).length < L) ∧
    (∀ st : MbootState, st.isOpened = true → st.cmdException = false →
      st.maxPacketSize = some P →
      st.reads = okReadScript chunks ++
        [.packet (.readMemory CommandTag.READ_MEMORY failStatus
          (usbSubLen L P chunks.length))] →
      ∃ stf, readMemory address L 0 false false true st =
          .ok (some ([] : List Nat)) stf ∧ stf.statusCode = failStatus) := by
  have hlens' : ∀ j cj, chunks[j]? = some cj → cj.length =
      (if 0 + j = usbNumPackets L P - 1 ∧ L % P ≠ 0 then L % P else P) := by
    intro j cj hj
    rw [hlens j cj hj, usbSubLen, Nat.zero_add]
  -- total bytes of the accumulated partial result stay below L
  have hksmall : (chunks.flatten ++ lastPart).length < L := by
    have hmap : chunks.map List.length =
        (List.range chunks.length).map (usbSubLen L P) := by
      apply List.ext_getElem?
      intro i
      by_cases hi : i < chunks.length
      · have hsome : chunks[i]? = some chunks[i] := List.getElem?_eq_getElem hi
        rw [List.getElem?_map, hsome, List.getElem?_map,
          List.getElem?_range hi]
        exact congrArg some (hlens i chunks[i] hsome)
      · rw [List.getElem?_map, List.getElem?_map,
          List.getElem?_eq_none (by omega),
          List.getElem?_eq_none (by simpa using hi)]
        rfl
    have htake : (usbSubLengths L P).take chunks.length =
        (List.range chunks.length).map (usbSubLen L P) := by
      rw [usbSubLengths, ← List.map_take, List.take_range,
        Nat.min_eq_left (by omega)]
    have hS : chunks.flatten.length =
        ((usbSubLengths L P).take chunks.length).sum := by
      rw [List.length_flatten, hmap, htake]
    have hsub : (usbSubLengths L P)[chunks.length]? =
        some (usbSubLen L P chunks.length) := by
      rw [usbSubLengths, List.getElem?_map, List.getElem?_range hm]
      rfl
    have hsucc : ((usbSubLengths L P).take (chunks.length + 1)).sum =
        ((usbSubLengths L P).take chunks.length).sum +
          usbSubLen L P chunks.length := by
      rw [List.take_succ, hsub, List.sum_append]
      simp
    have hmin := usbSubLengths_take_sum L P hP (chunks.length + 1)
    have hle : ((usbSubLengths L P).take (chunks.length + 1)).sum ≤ L := by
      rw [hmin]
      exact Nat.min_le_right _ _
    rw [List.length_append, hS]
    omega
  constructor
  · intro st hopen hexc hmps hreads
    have hcycles := usbLoop_cycles address P 0 (L % P) (usbNumPackets L P) L
      false chunks 0 [] st
      (timeoutReadCycle (usbSubLen L P chunks.length) lastPart)
      hopen hexc hreads (by omega) hlens'
    rw [usbLoop_timeout_cycle address P 0 (L % P) (usbNumPackets L P) L false
      (0 + chunks.length) (([] : List Nat) ++ chunks.flatten) _ lastPart []
      (by simp [hopen]) (by simp [hexc])
      (by simp [usbSubLen, Nat.zero_add])
      (by omega)
      (by rw [show (if 0 + chunks.length = usbNumPackets L P - 1 ∧ L % P ≠ 0
          then L % P else P) = usbSubLen L P chunks.length from
            by rw [usbSubLen, Nat.zero_add]]
          exact hlast)] at hcycles
    refine ⟨?stf1, ?heq1, ?hst1, ?hk1⟩
    case heq1 =>
      rw [readMemory]
      rw [if_pos (⟨rfl, rfl⟩ : (true = true ∧ false = false))]
      simp only [getMaxPacketSize, hmps, Outcome.bind]
      rw [show clampDownMemoryId 0 = 0 from rfl]
      rw [show (L / P + if L % P ≠ 0 then 1 else 0) = usbNumPackets L P
        from rfl]
      rw [hcycles]
      simp [Outcome.bind]
      exact Eq.refl _
    case hst1 => rfl
    case hk1 => exact hksmall
  · intro st hopen hexc hmps hreads
    have hcycles := usbLoop_cycles address P 0 (L % P) (usbNumPackets L P) L
      false chunks 0 [] st
      [.packet (.readMemory CommandTag.READ_MEMORY failStatus
        (usbSubLen L P chunks.length))]
      hopen hexc hreads (by omega) hlens'
    rw [usbLoop_failcmd address P 0 (L % P) (usbNumPackets L P) L false
      (0 + chunks.length) (([] : List Nat) ++ chunks.flatten) _ failStatus
      (usbSubLen L P chunks.length) []
      (by simp [hopen]) (by simp [hexc]) (by simp) (by omega) hfail]
      at hcycles
    refine ⟨?stf2, ?heq2, ?hst2⟩
    case heq2 =>
      rw [readMemory]
      rw [if_pos (⟨rfl, rfl⟩ : (true = true ∧ false = false))]
      simp only [getMaxPacketSize, hmps, Outcome.bind]
      rw [show clampDownMemoryId 0 = 0 from rfl]
      rw [show (L / P + if L % P ≠ 0 then 1 else 0) = usbNumPackets L P
        from rfl]
      rw [hcycles]
      simp [Outcome.bind]
      exact Eq.refl _
    case hst2 => rfl

/-- Witness for C1: with length 5 and packet size 2, a first successful
sub-read delivering `[10, 11]` followed by a sub-read whose data phase
delivers `[12]` and times out yields exactly `[10, 11, 12]` with status
NO_RESPONSE; a failing command response (status 1) instead yields `b""`. -/
theorem read_memory_usb_partial_witness :
    (∃ stf, readMemory 256 5 0 false false true
        ⟨0, true, false, some 2, none,
         okReadScript [[10, 11]] ++ timeoutReadCycle 2 [12], [], [], []⟩ =
      .ok (some [10, 11, 12]) stf ∧
      stf.statusCode = StatusCode.NO_RESPONSE) ∧
    (∃ stf, readMemory 256 5 0 false false true
        ⟨0, true, false, some 2, none,
         okReadScript [[10, 11]] ++
           [.packet (.readMemory CommandTag.READ_MEMORY 1 2)], [], [], []⟩ =
      .ok (some ([] : List Nat)) stf ∧ stf.statusCode = 1) := by
  obtain ⟨h1, h2⟩ := read_memory_usb_partial 256 5 2 [[10, 11]] [12] 1
    (by norm_num) (by norm_num) (by decide)
    (by
      intro j cj hj
      cases j with
      | zero =>
        have h0 : ([[10, 11]] : List (List Nat))[0]? = some [10, 11] := rfl
        rw [h0] at hj
        have hcj : cj = [10, 11] := (Option.some.inj hj).symm
        subst hcj
        decide
      | succ n => simp at hj)
    (by decide) (by decide)
  obtain ⟨stf1, e1, s1, -⟩ := h1
    ⟨0, true, false, some 2, none,
     okReadScript [[10, 11]] ++ timeoutReadCycle 2 [12], [], [], []⟩
    rfl rfl rfl rfl
  obtain ⟨stf2, e2, s2⟩ := h2
    ⟨0, true, false, some 2, none,
     okReadScript [[10, 11]] ++
       [.packet (.readMemory CommandTag.READ_MEMORY 1 2)], [], [], []⟩
    rfl rfl rfl rfl
  exact ⟨⟨stf1, e1.trans rfl, s1⟩, ⟨stf2, e2, s2⟩⟩

end Spsdk
